import Mathlib

/-!
Verification of the provider mirror/cache engine of vc-terraform-registry.

The definitions below are a shallow embedding of the Go source:
  * `backend/internal/proxy/proxy.go` — path sanitizers, `BuildSafeProviderPath`,
    `DownloadAndCacheProvider` (temp-file + checksum + rename caching);
  * `backend/internal/api/mirror_handler.go` — platform resolution, the mirror
    download loop, and the zip import extraction;
  * `backend/internal/api/mirror_protocol_handler.go` — parameter validation of
    the network-mirror protocol endpoints;
  * `backend/internal/scheduler` — schedule reconciliation.

Strings are modelled by Lean `String` (Go strings are byte slices; all paths
here are compared as sequences of characters and every relevant Go operation —
`strings.Contains`, `strings.HasPrefix`, `filepath.Clean`, `filepath.Join`,
`filepath.Base` — is re-implemented below from its Go definition for the Unix
separator `/`).  Filesystem effects are modelled by an association list of
(path, contents) pairs plus an explicit trace of filesystem operations, so that
intermediate states of a download are expressible.  SHA-256 is modelled by an
arbitrary hash function carried in the environment: none of the verified
properties depend on the concrete digest, only on equality of digests.
-/

/-! ## Character classes and low-level string operations -/

/-- A decimal digit, as in Go's regexp class `[0-9]`. -/
def isDigitChar (c : Char) : Bool := '0' ≤ c && c ≤ '9'

/-- Go regexp class `[a-zA-Z0-9]`. -/
def isASCIIAlphaNum (c : Char) : Bool :=
  ('A' ≤ c && c ≤ 'Z') || ('a' ≤ c && c ≤ 'z') || ('0' ≤ c && c ≤ '9')

/-- Go regexp class `[a-z0-9]` (lowercase only). -/
def isLowerAlphaNum (c : Char) : Bool :=
  ('a' ≤ c && c ≤ 'z') || ('0' ≤ c && c ≤ '9')

/-- The NUL character `\x00`. -/
def nulChar : Char := Char.ofNat 0

/-- Model of Go `strings.Contains` on character lists: does `sub` occur as a
contiguous run inside `l`? -/
def listHasSub : List Char → List Char → Bool
  | [], sub => sub.isEmpty
  | l@(_ :: t), sub => sub.isPrefixOf l || listHasSub t sub

/-- Model of Go `strings.Contains`. -/
def strContains (s sub : String) : Bool := listHasSub s.toList sub.toList

/-- Model of Go `strings.HasPrefix`. -/
def strHasPref (s pre : String) : Bool := pre.toList.isPrefixOf s.toList

/-- Model of Go `strings.Split(s, "/")` restricted to the single-character
separator `/` (the only separator used by the embedded code). -/
def splitSlash : List Char → List (List Char)
  | [] => [[]]
  | c :: t =>
    let r := splitSlash t
    if c = '/' then [] :: r
    else match r with
      | [] => [[c]]
      | h :: t2 => (c :: h) :: t2

/-- Model of Go `strings.Join(parts, "/")`. -/
def joinSlash : List (List Char) → List Char
  | [] => []
  | [p] => p
  | p :: rest => p ++ '/' :: joinSlash rest

/-! ## Go `path/filepath` lexical operations (Unix separator) -/

/-- The element-processing loop of Go `filepath.Clean`: drop empty elements and
`.`, resolve `..` against the elements accumulated so far (a rooted path
swallows leading `..`, a relative path keeps them). -/
def cleanParts (rooted : Bool) (parts : List (List Char)) : List (List Char) :=
  parts.foldl
    (fun out p =>
      if p = [] ∨ p = ['.'] then out
      else if p = ['.', '.'] then
        if out ≠ [] ∧ out.getLast? ≠ some ['.', '.'] then out.dropLast
        else if rooted then out
        else out ++ [['.', '.']]
      else out ++ [p])
    []

/-- Model of Go `filepath.Clean` for the Unix separator. -/
def goClean (path : String) : String :=
  if path = "" then "."
  else
    let l := path.toList
    let rooted : Bool := match l with | '/' :: _ => true | _ => false
    let out := joinSlash (cleanParts rooted (splitSlash l))
    if rooted then String.mk ('/' :: out)
    else if out = [] then "." else String.mk out

/-- Model of Go `filepath.Join`: skip leading empty elements, join the rest
with `/` and clean the result; all elements empty yields `""`. -/
def goJoin : List String → String
  | [] => ""
  | e :: rest =>
    if e = "" then goJoin rest
    else goClean (String.mk (joinSlash ((e :: rest).map String.toList)))

/-- Model of Go `filepath.Base` for the Unix separator. -/
def goBase (path : String) : String :=
  if path = "" then "."
  else
    let l := path.toList
    let stripped := (l.reverse.dropWhile (· = '/')).reverse
    let name := (stripped.reverse.takeWhile (· ≠ '/')).reverse
    if name = [] then "/" else String.mk name

/-! ## Coordinate sanitizer (`proxy.go`, `sanitizePathComponent`,
`buildSafeProviderPath`, `sanitizeFilename`) -/

/-- The anchored allow-list regexp `^[a-zA-Z0-9][a-zA-Z0-9._-]*$`
(`pathComponentRegex` in `proxy.go`), as a predicate on strings. -/
def pathComponentRegexMatch (s : String) : Bool :=
  match s.toList with
  | [] => false
  | c :: cs => isASCIIAlphaNum c && cs.all (fun d => isASCIIAlphaNum d || d = '.' || d = '_' || d = '-')

/-- `sanitizePathComponent` from `proxy.go`: reject empty components, components
containing `..`, `/`, `\`, or NUL, and components failing the allow-list
regexp; accepted components are returned unchanged. -/
def sanitizePathComponent (component : String) : Except String String :=
  if component = "" then .error "path component cannot be empty"
  else if strContains component ".." || strContains component "/" ||
          strContains component "\\" || strContains component (String.mk [nulChar]) then
    .error "path component contains invalid characters"
  else if !(pathComponentRegexMatch component) then
    .error "path component contains invalid characters"
  else .ok component

/-- `buildSafeProviderPath` from `proxy.go`: sanitize all five coordinate
components, join them under the storage path, clean, and require the cleaned
result to start with the cleaned storage path followed by the separator. -/
def buildSafeProviderPath (storagePath nspace name version osType arch : String) :
    Except String String :=
  match sanitizePathComponent nspace with
  | .error e => .error ("invalid namespace: " ++ e)
  | .ok safeNS =>
  match sanitizePathComponent name with
  | .error e => .error ("invalid name: " ++ e)
  | .ok safeName =>
  match sanitizePathComponent version with
  | .error e => .error ("invalid version: " ++ e)
  | .ok safeVersion =>
  match sanitizePathComponent osType with
  | .error e => .error ("invalid os: " ++ e)
  | .ok safeOS =>
  match sanitizePathComponent arch with
  | .error e => .error ("invalid arch: " ++ e)
  | .ok safeArch =>
    let dirPath := goJoin [storagePath, safeNS, safeName, safeVersion, safeOS, safeArch]
    let cleanPath := goClean dirPath
    let cleanStorage := goClean storagePath
    if strHasPref cleanPath (cleanStorage ++ "/") then .ok cleanPath
    else .error "path escapes storage directory"

/-- `sanitizeFilename` from `proxy.go`: take the base name, reject empty, `.`,
`..`, and names containing NUL. -/
def sanitizeFilename (filename : String) : Except String String :=
  if filename = "" then .error "filename cannot be empty"
  else
    let safeName := goBase filename
    if safeName = "." || safeName = ".." || safeName = "" then .error "invalid filename"
    else if strContains safeName (String.mk [nulChar]) then
      .error "filename contains invalid characters"
    else .ok safeName

/-! ## Filesystem model

Files are byte sequences (`List Nat`), the filesystem an association list from
paths to contents.  A run of the cache store is represented by its result plus
the trace of filesystem operations it performed, so that both the final state
and every intermediate state (between two operations) are expressible. -/

/-- File contents: a sequence of bytes. -/
abbrev Bytes := List Nat

/-- A filesystem: paths mapped to file contents. -/
abbrev FS := List (String × Bytes)

/-- Look up the contents of a path. -/
def fsGet : FS → String → Option Bytes
  | [], _ => none
  | (q, c) :: t, p => if q = p then some c else fsGet t p

/-- Delete a path. -/
def fsRemove : FS → String → FS
  | [], _ => []
  | (q, c) :: t, p => if q = p then fsRemove t p else (q, c) :: fsRemove t p

/-- Create or overwrite a path. -/
def fsSet (fs : FS) (p : String) (c : Bytes) : FS := (p, c) :: fsRemove fs p

/-- One filesystem operation performed by the code: `os.Create` (truncate to
empty), a completed `io.Copy` into an open file, `os.Rename`, `os.Remove`. -/
inductive FsOp where
  | create (p : String)
  | write (p : String) (c : Bytes)
  | rename (src dst : String)
  | remove (p : String)
deriving DecidableEq, Repr

/-- Effect of one operation on the filesystem. -/
def applyOp (fs : FS) : FsOp → FS
  | .create p => fsSet fs p []
  | .write p c => fsSet fs p c
  | .rename src dst =>
    match fsGet fs src with
    | some c => fsSet (fsRemove fs src) dst c
    | none => fs
  | .remove p => fsRemove fs p

/-- Effect of a trace of operations. -/
def applyOps (fs : FS) (ops : List FsOp) : FS := ops.foldl applyOp fs

/-! ## Upstream client data (`proxy.go`) -/

/-- `Platform` from `proxy.go`: an OS/arch pair advertised by upstream. -/
structure Platform where
  os : String
  arch : String
deriving DecidableEq, Repr

/-- `Version` from `proxy.go`: one upstream version entry. -/
structure Version where
  version : String
  protocols : List String
  platforms : List Platform
deriving DecidableEq, Repr

/-- `VersionsResponse` from `proxy.go`. -/
structure VersionsResponse where
  versions : List Version
deriving DecidableEq, Repr

/-- `DownloadInfo` from `proxy.go` (the fields the embedded code reads). -/
structure DownloadInfo where
  protocols : List String
  os : String
  arch : String
  filename : String
  downloadURL : String
  sha256Sum : String
deriving DecidableEq, Repr

/-! ## `DownloadAndCacheProvider` (`proxy.go`) -/

/-- Outcome of the HTTP GET of the binary plus the `io.Copy` into the temp
file: a transport error, or a response with a status code, the bytes the copy
wrote, and whether the copy completed (`copyFail = some k` means the copy
failed after writing the first `k` bytes of the body). -/
inductive FetchResult where
  | netError (msg : String)
  | response (status : Nat) (body : Bytes) (copyFail : Option Nat)
deriving DecidableEq, Repr

/-- The deterministic environment of one `DownloadAndCacheProvider` run: the
digest function, the result of `GetProviderDownloadInfo`, the binary fetch
outcome, and whether `os.Create` / `os.Rename` succeed. -/
structure DacEnv where
  hash : Bytes → String
  getInfo : Except String DownloadInfo
  fetch : FetchResult
  createTempOk : Bool
  renameOk : Bool

/-- Result of a run: the Go return value, the filesystem trace, the target file
path once it has been computed, and whether the binary GET was attempted. -/
structure DacOut where
  res : Except String (String × String)
  ops : List FsOp
  target : Option String
  downloaded : Bool

/-- The download section of `DownloadAndCacheProvider`: GET the binary, stream
it into `<file>.tmp` while hashing, compare the digest with the descriptor's,
and only on a match rename the temp file over the final name; every failure
removes the temp file. -/
def fetchAndStore (env : DacEnv) (info : DownloadInfo) (filePath : String) : DacOut :=
  match env.fetch with
  | .netError msg =>
    ⟨.error ("failed to download provider: " ++ msg), [], some filePath, true⟩
  | .response status body copyFail =>
    if status ≠ 200 then
      ⟨.error ("download returned status " ++ toString status), [], some filePath, true⟩
    else
      let tempPath := filePath ++ ".tmp"
      if !env.createTempOk then
        ⟨.error "failed to create file", [], some filePath, true⟩
      else
        match copyFail with
        | some k =>
          ⟨.error "failed to write file",
           [.create tempPath, .write tempPath (body.take k), .remove tempPath],
           some filePath, true⟩
        | none =>
          let calculated := env.hash body
          if calculated ≠ info.sha256Sum then
            ⟨.error ("checksum mismatch: expected " ++ info.sha256Sum ++ ", got " ++ calculated),
             [.create tempPath, .write tempPath body, .remove tempPath],
             some filePath, true⟩
          else if env.renameOk then
            ⟨.ok (filePath, calculated),
             [.create tempPath, .write tempPath body, .rename tempPath filePath],
             some filePath, true⟩
          else
            ⟨.error "failed to rename file",
             [.create tempPath, .write tempPath body, .remove tempPath],
             some filePath, true⟩

/-- `DownloadAndCacheProvider` from `proxy.go`: build the safe directory path,
fetch the download descriptor, sanitize the filename; if a file of that name
already exists and its digest matches the descriptor's, return it as a cache
hit; otherwise download through the temp-file + checksum + rename sequence. -/
def downloadAndCacheProvider (env : DacEnv)
    (storagePath nspace name version osType arch : String) (fs : FS) : DacOut :=
  match buildSafeProviderPath storagePath nspace name version osType arch with
  | .error e => ⟨.error e, [], none, false⟩
  | .ok dirPath =>
  match env.getInfo with
  | .error e => ⟨.error e, [], none, false⟩
  | .ok info =>
  match sanitizeFilename info.filename with
  | .error e => ⟨.error e, [], none, false⟩
  | .ok safeFilename =>
    let filePath := goJoin [dirPath, safeFilename]
    match fsGet fs filePath with
    | some existing =>
      let existingSHA := env.hash existing
      if existingSHA = info.sha256Sum then
        ⟨.ok (filePath, existingSHA), [], some filePath, false⟩
      else fetchAndStore env info filePath
    | none => fetchAndStore env info filePath

/-! ## Mirror orchestration (`mirror_handler.go`) -/

/-- `platformInfo` from `mirror_handler.go`. -/
structure platformInfo where
  os : String
  arch : String
deriving DecidableEq, Repr

/-- The fields of `models.ProviderPlatform` that the mirror loop fills in. -/
structure ProviderPlatform where
  os : String
  arch : String
  filename : String
  filePath : String
  sha256Sum : String
  fileSize : Nat
deriving DecidableEq, Repr

/-- `getPlatformsForVersion` from `mirror_handler.go`: substitute the first
(most recent) version when the requested one is empty, then take the platform
list of the first entry carrying that version, filtered by the `os`/`arch`
selectors (`"all"` matches everything). -/
def getPlatformsForVersion (versions : VersionsResponse) (version osType arch : String) :
    List platformInfo × String :=
  let version :=
    match versions.versions with
    | [] => version
    | v0 :: _ => if version = "" then v0.version else version
  let platforms :=
    match versions.versions.find? (fun v => v.version == version) with
    | none => []
    | some v =>
      (v.platforms.filter
        (fun p => (osType == "all" || osType == p.os) && (arch == "all" || arch == p.arch))).map
        (fun p => ({ os := p.os, arch := p.arch } : platformInfo))
  (platforms, version)

/-- `fetchPlatformsToMirror` from `mirror_handler.go`: list versions upstream
(`getVersions` is the upstream call's result), error when none are available or
when the filter leaves no platform. -/
def fetchPlatformsToMirror (getVersions : Except String VersionsResponse)
    (version osType arch : String) : Except String (List platformInfo × String) :=
  match getVersions with
  | .error e => .error ("failed to get versions: " ++ e)
  | .ok versions =>
    if versions.versions.isEmpty then .error "no versions available"
    else
      let (platforms, resolvedVersion) := getPlatformsForVersion versions version osType arch
      if platforms.isEmpty then .error "no matching platforms found"
      else .ok (platforms, resolvedVersion)

/-- The loop of `downloadPlatforms` from `mirror_handler.go`: `dl` is the
per-platform `DownloadAndCacheProvider` call, `fsize` the `getFileSize`
lookup; a failure records the error and continues, a success appends a
platform row. -/
def downloadPlatformsLoop (dl : platformInfo → Except String (String × String))
    (fsize : String → Nat) (acc : List ProviderPlatform) (lastError : Option String) :
    List platformInfo → List ProviderPlatform × Option String
  | [] => (acc, lastError)
  | plat :: rest =>
    match dl plat with
    | .error e => downloadPlatformsLoop dl fsize acc (some e) rest
    | .ok (filePath, sha256sum) =>
      downloadPlatformsLoop dl fsize
        (acc ++ [{ os := plat.os, arch := plat.arch, filename := goBase filePath,
                   filePath := filePath, sha256Sum := sha256sum, fileSize := fsize filePath }])
        lastError rest

/-- `downloadPlatforms` from `mirror_handler.go`. -/
def downloadPlatforms (dl : platformInfo → Except String (String × String))
    (fsize : String → Nat) (platforms : List platformInfo) :
    List ProviderPlatform × Option String :=
  downloadPlatformsLoop dl fsize [] none platforms

/-- The three outcomes of the `MirrorProvider` handler, after parameter
parsing: 404 when platform resolution fails, 500 when no platform could be
mirrored (carrying the last per-platform error), success otherwise. -/
inductive MirrorOutcome where
  | notFound (msg : String)
  | failedAll (lastError : Option String)
  | mirrored (platforms : List ProviderPlatform)
deriving DecidableEq, Repr

/-- The mirroring section of `MirrorProvider` from `mirror_handler.go`
(lines 399–413): resolve the platforms, download them all, report overall
failure only when the mirrored list is empty. -/
def mirrorProvider (getVersions : Except String VersionsResponse)
    (dl : platformInfo → Except String (String × String)) (fsize : String → Nat)
    (version osType arch : String) : MirrorOutcome :=
  match fetchPlatformsToMirror getVersions version osType arch with
  | .error e => .notFound e
  | .ok (platforms, _resolvedVersion) =>
    let (mirroredPlatforms, lastError) := downloadPlatforms dl fsize platforms
    if mirroredPlatforms.length = 0 then .failedAll lastError
    else .mirrored mirroredPlatforms

/-! ## Export/Import zip extraction (`mirror_handler.go`) -/

/-- `PlatformManifest` from `mirror_handler.go`. -/
structure PlatformManifest where
  os : String
  arch : String
  filename : String
  sha256Sum : String
  fileSize : Nat
  zipPath : String
deriving DecidableEq, Repr

/-- One zip directory entry: member name and uncompressed size. -/
structure ZipEntry where
  name : String
  size : Nat
deriving DecidableEq, Repr

/-- The per-file cap of the import path (`maxFileSize` in `mirror_handler.go`,
500MB). -/
def maxFileSize : Nat := 500 * 1024 * 1024

/-- Outcome of opening one zip member and copying it: open failure, or the
bytes the copy produced together with whether the copy completed. -/
inductive ZipReadResult where
  | openError (msg : String)
  | copied (written : Bytes) (ok : Bool)
deriving DecidableEq, Repr

/-- Environment of one `extractZipFile` call. -/
structure ZipEnv where
  mkdirOk : Bool
  createOk : Bool
  zipRead : ZipReadResult

/-- Result of `extractZipFile`: the Go return value, the filesystem trace, and
the target path once computed. -/
structure ExtractOut where
  res : Except String String
  ops : List FsOp
  target : Option String

/-- `extractZipFile` from `mirror_handler.go`: sanitize-build the directory,
sanitize the filename, then `os.Create` the final path directly, copy the
member through `io.LimitReader` (capped at `maxFileSize`) into it, and
`os.Remove` the file only if the copy fails.  The write goes straight to the
final path: there is no temp-file-then-rename step, and a zip-open failure
leaves the freshly created empty file in place. -/
def extractZipFile (env : ZipEnv) (storagePath nspace name version : String)
    (pm : PlatformManifest) : ExtractOut :=
  match buildSafeProviderPath storagePath nspace name version pm.os pm.arch with
  | .error e => ⟨.error ("invalid path components: " ++ e), [], none⟩
  | .ok dirPath =>
    if !env.mkdirOk then ⟨.error "mkdir failed", [], none⟩
    else
      match sanitizeFilename pm.filename with
      | .error e => ⟨.error ("invalid filename: " ++ e), [], none⟩
      | .ok safeFilename =>
        let filePath := goJoin [dirPath, safeFilename]
        if !env.createOk then ⟨.error "create failed", [], some filePath⟩
        else
          match env.zipRead with
          | .openError msg => ⟨.error msg, [.create filePath], some filePath⟩
          | .copied written ok =>
            if ok then
              ⟨.ok filePath,
               [.create filePath, .write filePath (written.take maxFileSize)],
               some filePath⟩
            else
              ⟨.error "copy failed",
               [.create filePath, .write filePath (written.take maxFileSize),
                .remove filePath],
               some filePath⟩

/-- `findFileInZip` from `mirror_handler.go`. -/
def findFileInZip (entries : List ZipEntry) (path : String) : Option ZipEntry :=
  entries.find? (fun f => f.name == path)

/-- The body of the loop of `extractPlatformsFromZip` from `mirror_handler.go`:
skip a platform whose member is missing or larger than the cap, skip failed
extractions, append successful ones.  `ex` abstracts the `extractZipFile` call
(whose result does not depend on filesystem contents). -/
def importStep (ex : PlatformManifest → ExtractOut) (entries : List ZipEntry)
    (acc : List PlatformManifest) (pm : PlatformManifest) : List PlatformManifest :=
  match findFileInZip entries pm.zipPath with
  | none => acc
  | some zf =>
    if zf.size > maxFileSize then acc
    else
      match (ex pm).res with
      | .error _ => acc
      | .ok _ => acc ++ [pm]

/-- `extractPlatformsFromZip` from `mirror_handler.go`. -/
def extractPlatformsFromZip (ex : PlatformManifest → ExtractOut)
    (entries : List ZipEntry) (platforms : List PlatformManifest) :
    List PlatformManifest :=
  platforms.foldl (importStep ex entries) []

/-! ## Scheduler reconciliation (`scheduler.go`) -/

/-- `models.SyncSchedule` (the columns the scheduler reads). -/
structure SyncSchedule where
  id : Nat
  nspace : String
  name : String
  cronExpr : String
  enabled : Bool
  syncOS : String
  syncArch : String
deriving DecidableEq, Repr

/-- The cron library, abstractly: whether `cron.AddFunc` accepts an expression
and what `entry.Next` evaluates to for it. -/
structure CronEnv where
  parses : String → Bool
  nextOf : String → Nat

/-- The scheduler's observable state: the key set of the in-memory `jobs` map
and the persisted `next_run_at` column by schedule id. -/
structure SchedState where
  jobs : List Nat
  nextRun : List (Nat × Nat)

/-- Look up a schedule's recorded `next_run_at`. -/
def nrGet : List (Nat × Nat) → Nat → Option Nat
  | [], _ => none
  | (k, v) :: t, q => if k = q then some v else nrGet t q

/-- Delete a schedule's recorded `next_run_at`. -/
def nrRemove : List (Nat × Nat) → Nat → List (Nat × Nat)
  | [], _ => []
  | (k, v) :: t, q => if k = q then nrRemove t q else (k, v) :: nrRemove t q

/-- Record a schedule's `next_run_at`. -/
def nrSet (l : List (Nat × Nat)) (k v : Nat) : List (Nat × Nat) := (k, v) :: nrRemove l k

/-- `addJob` from `scheduler.go`: replace any existing cron entry for the row,
register a new one (which fails when the cron expression does not parse, in
which case neither the job map nor `next_run_at` changes), record the id in
the job map and persist the entry's freshly computed next firing time. -/
def addJob (cron : CronEnv) (st : SchedState) (row : SyncSchedule) : SchedState × Bool :=
  if cron.parses row.cronExpr then
    ({ jobs := if st.jobs.contains row.id then st.jobs else st.jobs ++ [row.id]
       nextRun := nrSet st.nextRun row.id (cron.nextOf row.cronExpr) }, true)
  else (st, false)

/-- `removeJob` from `scheduler.go`: drop the row's cron entry and its job-map
key (a no-op when the id is not registered). -/
def removeJob (st : SchedState) (scheduleID : Nat) : SchedState :=
  { st with jobs := st.jobs.erase scheduleID }

/-- The body of the first reconciliation loop of `refreshSchedules`: enabled
rows not yet registered are added, disabled rows are removed. -/
def refreshStep (cron : CronEnv) (acc : SchedState) (row : SyncSchedule) : SchedState :=
  if row.enabled then
    if acc.jobs.contains row.id then acc else (addJob cron acc row).1
  else removeJob acc row.id

/-- `refreshSchedules` from `scheduler.go`: walk the full schedule table
(adding newly enabled rows, removing disabled ones), then drop every job whose
id no longer appears in the table. -/
def refreshSchedules (cron : CronEnv) (table : List SyncSchedule) (st : SchedState) :
    SchedState :=
  let st1 := table.foldl (refreshStep cron) st
  { st1 with jobs := st1.jobs.filter (fun i => table.any (fun row => row.id == i)) }

/-- The reconciliation cadence of `watchForChanges` in `scheduler.go`
(`time.NewTicker(30 * time.Second)`), in seconds. -/
def tickIntervalSeconds : Nat := 30

/-! ## Network-mirror protocol parameter validation
(`mirror_protocol_handler.go`) -/

/-- Model of Go `strings.TrimSuffix`. -/
def strTrimSuffix (s suf : String) : String :=
  if suf.toList.isSuffixOf s.toList then
    String.mk (s.toList.take (s.toList.length - suf.toList.length))
  else s

/-- The anchored regexp `^[a-z0-9][a-z0-9_-]*$` (`validIdentifier` in
`mirror_protocol_handler.go`). -/
def validIdentifierMatch (s : String) : Bool :=
  match s.toList with
  | [] => false
  | c :: cs => isLowerAlphaNum c && cs.all (fun d => isLowerAlphaNum d || d = '_' || d = '-')

/-- The character class `[a-zA-Z0-9._-]` of the semantic-version regexp. -/
def isSemverExtChar (c : Char) : Bool :=
  isASCIIAlphaNum c || c = '.' || c = '_' || c = '-'

/-- The optional `(\+[a-zA-Z0-9._-]+)?$` part of the version regexp. -/
def semverBuildOk : List Char → Bool
  | [] => true
  | '+' :: rest => !rest.isEmpty && rest.all isSemverExtChar
  | _ => false

/-- The optional `(-[a-zA-Z0-9._-]+)?(\+[a-zA-Z0-9._-]+)?$` tail of the version
regexp (the classes exclude `+`, so the split at the first `+` is exact). -/
def semverTailOk (l : List Char) : Bool :=
  match l with
  | [] => true
  | '-' :: rest =>
    let pre := rest.takeWhile (fun c => c ≠ '+')
    let rest2 := rest.dropWhile (fun c => c ≠ '+')
    !pre.isEmpty && pre.all isSemverExtChar && semverBuildOk rest2
  | '+' :: rest => !rest.isEmpty && rest.all isSemverExtChar
  | _ => false

/-- Consume a nonempty run of digits (`[0-9]+`). -/
def chompDigits (l : List Char) : Option (List Char) :=
  if (l.takeWhile isDigitChar).isEmpty then none else some (l.dropWhile isDigitChar)

/-- The anchored regexp
`^[0-9]+\.[0-9]+\.[0-9]+(-[a-zA-Z0-9._-]+)?(\+[a-zA-Z0-9._-]+)?$`
(`validVersion` in `mirror_protocol_handler.go`). -/
def validVersionMatch (s : String) : Bool :=
  match chompDigits s.toList with
  | none => false
  | some r1 =>
    match r1 with
    | '.' :: r2 =>
      match chompDigits r2 with
      | none => false
      | some r3 =>
        match r3 with
        | '.' :: r4 =>
          match chompDigits r4 with
          | none => false
          | some r5 => semverTailOk r5
        | _ => false
    | _ => false

/-- `validateProviderParams` from `mirror_protocol_handler.go`: namespace and
name must be at most 64 bytes and match `validIdentifier`; a non-empty version
must be at most 64 bytes and match `validVersion`.  Returns the error message,
or `""` when everything is valid. -/
def validateProviderParams (nspace name version : String) : String :=
  if 64 < nspace.utf8ByteSize ∨ validIdentifierMatch nspace = false then
    "invalid namespace: must be 1-64 lowercase alphanumeric characters, hyphens, or underscores"
  else if 64 < name.utf8ByteSize ∨ validIdentifierMatch name = false then
    "invalid name: must be 1-64 lowercase alphanumeric characters, hyphens, or underscores"
  else if version ≠ "" ∧ (64 < version.utf8ByteSize ∨ validVersionMatch version = false) then
    "invalid version: must be a valid semantic version (e.g., 1.0.0)"
  else ""

/-- `models.Settings` (the fields the protocol handlers read). -/
structure Settings where
  allowOnlineSearch : Bool
  proxyEnabled : Bool
  proxyURL : String
  proxyType : String
deriving DecidableEq, Repr

/-- A local `models.ProviderPlatform` row as the protocol handlers read it. -/
structure LocalPlatform where
  os : String
  arch : String
  sha256Sum : String
deriving DecidableEq, Repr

/-- `ArchiveInfo` from `mirror_protocol_handler.go`. -/
structure ArchiveInfo where
  url : String
  hashes : List String
deriving DecidableEq, Repr

/-- The environment of one protocol-handler request: the database answers and
the upstream answer the handler would observe if it asked. -/
structure MirrorProtocolEnv where
  dbVersions : Except String (List String)
  settings : Option Settings
  upstream : Except String VersionsResponse
  localPlatforms : List LocalPlatform
  host : String
  scheme : String

/-- Result of `ListAvailableVersions`, with flags recording whether the local
database or the upstream registry were consulted. -/
structure HandlerResult where
  status : Nat
  errorBody : Option String
  dbConsulted : Bool
  upstreamConsulted : Bool
deriving DecidableEq, Repr

/-- Result of `GetVersionArchives`. -/
structure ArchivesResult where
  status : Nat
  errorBody : Option String
  dbConsulted : Bool
  upstreamConsulted : Bool
  archives : List (String × ArchiveInfo)
deriving DecidableEq, Repr

/-- `ListAvailableVersions` from `mirror_protocol_handler.go`: validate the
parameters first (a failure answers 400 before any database or upstream
access), then merge local versions with upstream versions (when online search
is allowed) and answer 404 when the union is empty. -/
def listAvailableVersions (nspace name : String) (env : MirrorProtocolEnv) : HandlerResult :=
  let errMsg := validateProviderParams nspace name ""
  if errMsg ≠ "" then ⟨400, some errMsg, false, false⟩
  else
    match env.dbVersions with
    | .error e => ⟨500, some e, true, false⟩
    | .ok localVersions =>
      let allowOnline := match env.settings with | some s => s.allowOnlineSearch | none => true
      let upstreamVersions :=
        if allowOnline then
          match env.upstream with
          | .ok vr => vr.versions.map (fun v => v.version)
          | .error _ => []
        else []
      let versions := (localVersions ++ upstreamVersions).eraseDups
      if versions.isEmpty then ⟨404, some "provider not found", true, allowOnline⟩
      else ⟨200, none, true, allowOnline⟩

/-- `GetVersionArchives` from `mirror_protocol_handler.go`: trim a `.json`
suffix from the version, validate the parameters first (a failure answers 400
before any database or upstream access); otherwise build the archives map from
the upstream platform list when obtainable (attaching a `zh:` hash for locally
cached platforms), falling back to local platforms only, and answer 404 when
both lists are empty. -/
def getVersionArchives (nspace name versionParam : String) (env : MirrorProtocolEnv) :
    ArchivesResult :=
  let version := strTrimSuffix versionParam ".json"
  let errMsg := validateProviderParams nspace name version
  if errMsg ≠ "" then ⟨400, some errMsg, false, false, []⟩
  else
    let allowOnline := match env.settings with | some s => s.allowOnlineSearch | none => true
    let upstreamPlatforms :=
      if allowOnline then
        match env.upstream with
        | .ok vr =>
          match vr.versions.find? (fun v => v.version == version) with
          | some v => v.platforms
          | none => []
        | .error _ => []
      else []
    if upstreamPlatforms.isEmpty && env.localPlatforms.isEmpty then
      ⟨404, some "version not found", true, allowOnline, []⟩
    else if upstreamPlatforms.isEmpty then
      ⟨200, none, true, allowOnline,
       env.localPlatforms.map (fun p =>
         (p.os ++ "_" ++ p.arch,
          { url := env.scheme ++ "://" ++ env.host ++ "/v1/providers/" ++ nspace ++ "/" ++
              name ++ "/" ++ version ++ "/download/" ++ p.os ++ "/" ++ p.arch ++ "/binary"
            hashes := if p.sha256Sum ≠ "" then ["zh:" ++ p.sha256Sum] else [] }))⟩
    else
      ⟨200, none, true, allowOnline,
       upstreamPlatforms.map (fun p =>
         (p.os ++ "_" ++ p.arch,
          { url := env.scheme ++ "://" ++ env.host ++ "/v1/providers/" ++ nspace ++ "/" ++
              name ++ "/" ++ version ++ "/download/" ++ p.os ++ "/" ++ p.arch ++ "/binary"
            hashes :=
              match env.localPlatforms.find? (fun q => q.os == p.os && q.arch == p.arch) with
              | some q => if q.sha256Sum ≠ "" then ["zh:" ++ q.sha256Sum] else []
              | none => [] }))⟩

/-! ## Concrete demonstration data (used to instantiate the theorems) -/

/-- Demonstration manifest entry for the import path. -/
def demoPM : PlatformManifest :=
  { os := "linux", arch := "amd64", filename := "provider.zip", sha256Sum := "2"
    fileSize := 2, zipPath := "linux/amd64/provider.zip" }

/-- Demonstration import environment: everything succeeds, the member holds
the two bytes `[1, 2]`. -/
def demoZipEnv : ZipEnv :=
  { mkdirOk := true, createOk := true, zipRead := .copied [1, 2] true }

/-- The platform set of the spec's worked example. -/
def demoVersions : VersionsResponse :=
  ⟨[{ version := "1.0.0", protocols := ["5.0"]
      platforms := [⟨"linux", "amd64"⟩, ⟨"linux", "arm64"⟩, ⟨"darwin", "amd64"⟩] }]⟩

/-- Demonstration digest function: the number of bytes, in decimal. -/
def demoHash (b : Bytes) : String := Nat.repr b.length

/-- Demonstration download descriptor: expects a two-byte body. -/
def demoInfo : DownloadInfo :=
  { protocols := ["5.0"], os := "linux", arch := "amd64"
    filename := "terraform-provider-aws_5.0.0_linux_amd64.zip"
    downloadURL := "https://releases.example.com/aws.zip", sha256Sum := "2" }

/-- Demonstration environment: descriptor `demoInfo`, a 200 response whose body
is the two bytes `[7, 9]` (digest `"2"`), no injected create/rename failures. -/
def demoDacEnv : DacEnv :=
  { hash := demoHash, getInfo := .ok demoInfo
    fetch := .response 200 [7, 9] none, createTempOk := true, renameOk := true }

/-- The file path `demoDacEnv` caches under `/data`. -/
def demoFilePath : String :=
  "/data/hashicorp/aws/5.0.0/linux/amd64/terraform-provider-aws_5.0.0_linux_amd64.zip"

/-! ## Theorems -/

theorem listHasSub_single_false {c : Char} :
    ∀ {l : List Char}, c ∉ l → listHasSub l [c] = false := by
  intro l
  induction l with
  | nil => intro _; rfl
  | cons a t ih =>
    intro h
    have hne : c ≠ a := fun hca => h (hca ▸ List.mem_cons_self a t)
    have hnt : c ∉ t := fun hct => h (List.mem_cons_of_mem a hct)
    simp [listHasSub, List.isPrefixOf, ih hnt]
    exact fun hac => hne hac

theorem pathComponentRegexMatch_chars {s : String}
    (h : pathComponentRegexMatch s = true) :
    ∀ c ∈ s.toList, (isASCIIAlphaNum c || c = '.' || c = '_' || c = '-') = true := by
  unfold pathComponentRegexMatch at h
  intro c hc
  cases hl : s.toList with
  | nil => rw [hl] at hc; cases hc
  | cons a t =>
    rw [hl] at h hc
    simp only [Bool.and_eq_true] at h
    rcases List.mem_cons.mp hc with rfl | hct
    · simp [h.1]
    · have := (List.all_eq_true.mp h.2) c hct
      simp only [Bool.or_eq_true, decide_eq_true_eq] at this ⊢
      tauto

theorem pathComponentRegexMatch_not_mem {s : String} {c : Char}
    (h : pathComponentRegexMatch s = true)
    (hc : (isASCIIAlphaNum c || c = '.' || c = '_' || c = '-') = false) :
    c ∉ s.toList := by
  intro hmem
  have := pathComponentRegexMatch_chars h c hmem
  rw [hc] at this
  cases this

/-- C1: for every base path and every 5-tuple of component strings, if
`buildSafeProviderPath` returns a path without error, that path starts with the
cleaned base directory followed by the path separator: it never lies outside
the storage directory, whatever the components are. -/
theorem buildSafeProviderPath_within_base :
    ∀ (storagePath nspace name version osType arch p : String),
      buildSafeProviderPath storagePath nspace name version osType arch = .ok p →
      strHasPref p (goClean storagePath ++ "/") = true := by
  intro sp ns nm ver os ar p h
  unfold buildSafeProviderPath at h
  repeat' split at h
  all_goals try exact Except.noConfusion h
  dsimp only at h
  split at h
  · injection h with hp
    subst hp
    assumption
  · exact Except.noConfusion h

/-- Witness for C1 at a concrete input: the accepted path for
`hashicorp/aws/5.0.0/linux/amd64` under `/data` starts with `/data/`. -/
theorem buildSafeProviderPath_within_base_witness :
    strHasPref "/data/hashicorp/aws/5.0.0/linux/amd64" (goClean "/data" ++ "/") = true :=
  buildSafeProviderPath_within_base "/data" "hashicorp" "aws" "5.0.0" "linux" "amd64" _ rfl

/-- C2 counterexample: `"a..b"` matches the allow-list regexp
`^[A-Za-z0-9][A-Za-z0-9._-]*$` yet `sanitizePathComponent` rejects it (the `..`
blacklist check fires first), so "returns the string unchanged for every string
matching the regex" is false as stated. -/
theorem sanitizePathComponent_regex_not_sufficient :
    pathComponentRegexMatch "a..b" = true ∧
    sanitizePathComponent "a..b" = .error "path component contains invalid characters" :=
  ⟨by decide, rfl⟩

/-- C2 (amended): `sanitizePathComponent` returns an error for every string
that is empty or contains `..`, `/`, `\`, or NUL, and returns the string
unchanged for every string that matches `^[A-Za-z0-9][A-Za-z0-9._-]*$` and does
not contain `..` (the regex admits `..` in its tail, so the blacklist condition
must be excluded explicitly). -/
theorem sanitizePathComponent_correct :
    ∀ s : String,
      ((s = "" ∨ strContains s ".." = true ∨ strContains s "/" = true ∨
        strContains s "\\" = true ∨ strContains s (String.mk [nulChar]) = true) →
        (sanitizePathComponent s).toOption = none)
      ∧ ((pathComponentRegexMatch s = true ∧ strContains s ".." = false) →
        sanitizePathComponent s = .ok s) := by
  intro s
  constructor
  · intro h
    unfold sanitizePathComponent
    rcases h with rfl | h | h | h | h
    · rfl
    all_goals
      rw [h]
      simp only [Bool.true_or, Bool.or_true, if_true]
      split <;> rfl
  · rintro ⟨hre, hdd⟩
    have hs : s ≠ "" := by
      intro hs0
      rw [hs0] at hre
      cases hre
    have hslash : strContains s "/" = false := by
      apply listHasSub_single_false
      exact pathComponentRegexMatch_not_mem hre (by decide)
    have hback : strContains s "\\" = false := by
      apply listHasSub_single_false
      exact pathComponentRegexMatch_not_mem hre (by decide)
    have hnul : strContains s (String.mk [nulChar]) = false := by
      apply listHasSub_single_false
      exact pathComponentRegexMatch_not_mem hre (by decide)
    unfold sanitizePathComponent
    rw [if_neg hs, hdd, hslash, hback, hnul, hre]
    rfl

/-- Witness for C2 (amended): one rejected and one accepted concrete component. -/
theorem sanitizePathComponent_correct_witness :
    (sanitizePathComponent "foo/bar").toOption = none ∧
    sanitizePathComponent "hashicorp" = .ok "hashicorp" :=
  ⟨(sanitizePathComponent_correct "foo/bar").1 (Or.inr (Or.inr (Or.inl (by decide)))),
   (sanitizePathComponent_correct "hashicorp").2 ⟨by decide, by decide⟩⟩

theorem fsGet_remove_self (fs : FS) (p : String) : fsGet (fsRemove fs p) p = none := by
  induction fs with
  | nil => rfl
  | cons e t ih =>
    obtain ⟨q, c⟩ := e
    by_cases h : q = p
    · simp [fsRemove, h, ih]
    · simp [fsRemove, fsGet, h, ih]

theorem fsGet_remove_ne (fs : FS) {p q : String} (h : q ≠ p) :
    fsGet (fsRemove fs p) q = fsGet fs q := by
  induction fs with
  | nil => rfl
  | cons e t ih =>
    obtain ⟨r, c⟩ := e
    by_cases hr : r = p
    · subst hr
      have hrq : ¬r = q := fun e => h e.symm
      simp [fsRemove, fsGet, hrq, ih]
    · simp only [fsRemove, if_neg hr]
      by_cases hq : r = q
      · subst hq
        simp [fsGet, ih]
      · simp [fsGet, hq, ih]

theorem fsGet_set_self (fs : FS) (p : String) (c : Bytes) :
    fsGet (fsSet fs p c) p = some c := by
  simp [fsSet, fsGet]

theorem fsGet_set_ne (fs : FS) (c : Bytes) {p q : String} (h : q ≠ p) :
    fsGet (fsSet fs p c) q = fsGet fs q := by
  have : p ≠ q := fun e => h e.symm
  simp [fsSet, fsGet, this, fsGet_remove_ne fs h]

theorem append_tmp_ne (s : String) : s ++ ".tmp" ≠ s := by
  intro h
  have h2 := congrArg String.data h
  rw [String.data_append] at h2
  have h3 := congrArg List.length h2
  rw [List.length_append] at h3
  have h4 : (".tmp" : String).data.length = 4 := rfl
  omega

theorem fetchAndStore_cases (env : DacEnv) (info : DownloadInfo) (fp : String) :
    (∃ e, fetchAndStore env info fp = ⟨.error e, [], some fp, true⟩)
    ∨ (∃ e w, fetchAndStore env info fp =
        ⟨.error e,
         [.create (fp ++ ".tmp"), .write (fp ++ ".tmp") w, .remove (fp ++ ".tmp")],
         some fp, true⟩)
    ∨ (∃ body, fetchAndStore env info fp =
        ⟨.ok (fp, env.hash body),
         [.create (fp ++ ".tmp"), .write (fp ++ ".tmp") body, .rename (fp ++ ".tmp") fp],
         some fp, true⟩
        ∧ env.hash body = info.sha256Sum) := by
  unfold fetchAndStore
  cases env.fetch with
  | netError msg => exact Or.inl ⟨_, rfl⟩
  | response status body copyFail =>
    dsimp only
    split
    · exact Or.inl ⟨_, rfl⟩
    · split
      · exact Or.inl ⟨_, rfl⟩
      · split
        · exact Or.inr (Or.inl ⟨_, _, rfl⟩)
        · split
          · exact Or.inr (Or.inl ⟨_, _, rfl⟩)
          · split
            · rename_i hm hr
              exact Or.inr (Or.inr ⟨body, rfl, not_ne_iff.mp hm⟩)
            · exact Or.inr (Or.inl ⟨_, _, rfl⟩)

theorem fetchAndStore_atomic (env : DacEnv) (info : DownloadInfo) (fp : String) (fs : FS) :
    (∀ e, (fetchAndStore env info fp).res = .error e →
      ∀ p c, fsGet (applyOps fs (fetchAndStore env info fp).ops) p = some c → fsGet fs p = some c)
    ∧ (∀ pa sha, (fetchAndStore env info fp).res = .ok (pa, sha) →
      pa = fp ∧ sha = info.sha256Sum ∧
      ∃ c, fsGet (applyOps fs (fetchAndStore env info fp).ops) pa = some c ∧ env.hash c = sha)
    ∧ (∀ k, k < (fetchAndStore env info fp).ops.length →
      fsGet (applyOps fs ((fetchAndStore env info fp).ops.take k)) fp = fsGet fs fp) := by
  have hne : fp ≠ fp ++ ".tmp" := (append_tmp_ne fp).symm
  rcases fetchAndStore_cases env info fp with ⟨e0, heq⟩ | ⟨e0, w, heq⟩ | ⟨body, heq, hbody⟩
  · rw [heq]
    refine ⟨?_, ?_, ?_⟩
    · intro e _ p c hc
      simpa [applyOps] using hc
    · intro pa sha h
      exact Except.noConfusion h
    · intro k hk
      simp at hk
  · rw [heq]
    refine ⟨?_, ?_, ?_⟩
    · intro e _ p c hc
      simp only [applyOps, List.foldl, applyOp] at hc
      by_cases hp : p = fp ++ ".tmp"
      · subst hp
        rw [fsGet_remove_self] at hc
        exact Option.noConfusion hc
      · rwa [fsGet_remove_ne _ hp, fsGet_set_ne _ _ hp, fsGet_set_ne _ _ hp] at hc
    · intro pa sha h
      exact Except.noConfusion h
    · intro k hk
      simp only [List.length_cons, List.length_nil] at hk
      interval_cases k
      · rfl
      · simp only [List.take, applyOps, List.foldl, applyOp]
        exact fsGet_set_ne _ _ hne
      · simp only [List.take, applyOps, List.foldl, applyOp]
        rw [fsGet_set_ne _ _ hne, fsGet_set_ne _ _ hne]
  · rw [heq]
    refine ⟨?_, ?_, ?_⟩
    · intro e h
      exact Except.noConfusion h
    · intro pa sha h
      injection h with h2
      rw [Prod.mk.injEq] at h2
      obtain ⟨hpa, hsha⟩ := h2
      subst hpa
      subst hsha
      refine ⟨rfl, hbody, body, ?_, rfl⟩
      simp only [applyOps, List.foldl, applyOp]
      rw [fsGet_set_self]
      exact fsGet_set_self _ _ _
    · intro k hk
      simp only [List.length_cons, List.length_nil] at hk
      interval_cases k
      · rfl
      · simp only [List.take, applyOps, List.foldl, applyOp]
        exact fsGet_set_ne _ _ hne
      · simp only [List.take, applyOps, List.foldl, applyOp]
        rw [fsGet_set_ne _ _ hne, fsGet_set_ne _ _ hne]

theorem fetchAndStore_target (env : DacEnv) (info : DownloadInfo) (fp : String) :
    (fetchAndStore env info fp).target = some fp := by
  rcases fetchAndStore_cases env info fp with ⟨e0, heq⟩ | ⟨e0, w, heq⟩ | ⟨b, heq, _⟩ <;> rw [heq]

theorem fetchAndStore_atomic_info (env : DacEnv) (info : DownloadInfo) (fp : String) (fs : FS)
    (heqInfo : env.getInfo = .ok info) :
    (∀ e, (fetchAndStore env info fp).res = .error e →
      ∀ p c, fsGet (applyOps fs (fetchAndStore env info fp).ops) p = some c → fsGet fs p = some c)
    ∧ (∀ pa sha, (fetchAndStore env info fp).res = .ok (pa, sha) →
      (∃ c, fsGet (applyOps fs (fetchAndStore env info fp).ops) pa = some c ∧ env.hash c = sha)
      ∧ (∀ i, env.getInfo = .ok i → sha = i.sha256Sum))
    ∧ (∀ t, (fetchAndStore env info fp).target = some t →
      ∀ k, k < (fetchAndStore env info fp).ops.length →
        fsGet (applyOps fs ((fetchAndStore env info fp).ops.take k)) t = fsGet fs t) := by
  obtain ⟨h1, h2, h3⟩ := fetchAndStore_atomic env info fp fs
  refine ⟨h1, ?_, ?_⟩
  · intro pa sha h
    obtain ⟨hpa, hsha, c, hc, hhash⟩ := h2 pa sha h
    refine ⟨⟨c, hc, hhash⟩, ?_⟩
    intro i hi
    rw [heqInfo] at hi
    injection hi with hii
    exact hii ▸ hsha
  · intro t ht k hk
    rw [fetchAndStore_target] at ht
    injection ht with htt
    subst htt
    exact h3 k hk

/-- C3: every failing run of `DownloadAndCacheProvider` deletes its temporary
file and leaves every path's contents as they were (in particular the final
cache path gains nothing partially written), every successful run leaves the
returned path holding contents whose digest is the returned checksum and equals
the descriptor's expected checksum, and at every intermediate point of the
operation trace the target path still holds exactly its initial contents (the
only write to it is the final rename of the verified temp file). -/
theorem downloadAndCacheProvider_atomic (env : DacEnv)
    (sp nspace nm ver osT ar : String) (fs : FS) :
    (∀ e, (downloadAndCacheProvider env sp nspace nm ver osT ar fs).res = .error e →
      ∀ p c,
        fsGet (applyOps fs (downloadAndCacheProvider env sp nspace nm ver osT ar fs).ops) p = some c →
        fsGet fs p = some c)
    ∧ (∀ pa sha, (downloadAndCacheProvider env sp nspace nm ver osT ar fs).res = .ok (pa, sha) →
      (∃ c,
        fsGet (applyOps fs (downloadAndCacheProvider env sp nspace nm ver osT ar fs).ops) pa = some c ∧
        env.hash c = sha)
      ∧ (∀ i, env.getInfo = .ok i → sha = i.sha256Sum))
    ∧ (∀ t, (downloadAndCacheProvider env sp nspace nm ver osT ar fs).target = some t →
      ∀ k, k < (downloadAndCacheProvider env sp nspace nm ver osT ar fs).ops.length →
        fsGet (applyOps fs ((downloadAndCacheProvider env sp nspace nm ver osT ar fs).ops.take k)) t
          = fsGet fs t) := by
  unfold downloadAndCacheProvider
  split
  · exact ⟨fun _ _ p c hc => hc, fun pa sha h => Except.noConfusion h,
      fun t ht => Option.noConfusion ht⟩
  · split
    · exact ⟨fun _ _ p c hc => hc, fun pa sha h => Except.noConfusion h,
        fun t ht => Option.noConfusion ht⟩
    · rename_i info heqInfo
      split
      · exact ⟨fun _ _ p c hc => hc, fun pa sha h => Except.noConfusion h,
          fun t ht => Option.noConfusion ht⟩
      · rename_i safeFilename heqSan
        dsimp only
        split
        · rename_i existing heqGet
          split
          · rename_i hguard
            refine ⟨fun e h => Except.noConfusion h, ?_, ?_⟩
            · intro pa sha h
              injection h with h2
              rw [Prod.mk.injEq] at h2
              obtain ⟨hpa, hsha⟩ := h2
              subst hpa
              subst hsha
              refine ⟨⟨existing, heqGet, rfl⟩, ?_⟩
              intro i hi
              rw [heqInfo] at hi
              injection hi with hii
              exact hii ▸ hguard
            · intro t ht k hk
              simp at hk
          · exact fetchAndStore_atomic_info env _ _ fs heqInfo
        · exact fetchAndStore_atomic_info env _ _ fs heqInfo

/-- Witness for C3 at a concrete successful run starting from an empty
filesystem: the cache path ends up holding contents whose digest is the
returned checksum, which equals the descriptor's. -/
theorem downloadAndCacheProvider_atomic_witness :
    (∃ c,
      fsGet (applyOps ([] : FS)
          (downloadAndCacheProvider demoDacEnv "/data" "hashicorp" "aws" "5.0.0" "linux" "amd64" []).ops)
        demoFilePath = some c ∧ demoDacEnv.hash c = "2")
    ∧ (∀ i, demoDacEnv.getInfo = .ok i → "2" = i.sha256Sum) :=
  (downloadAndCacheProvider_atomic demoDacEnv "/data" "hashicorp" "aws" "5.0.0" "linux" "amd64"
    []).2.1 demoFilePath "2" rfl

theorem fetchAndStore_final_at_target (env : DacEnv) (info : DownloadInfo) (fp : String) (fs : FS) :
    (∀ e, (fetchAndStore env info fp).res = .error e →
      fsGet (applyOps fs (fetchAndStore env info fp).ops) fp = fsGet fs fp)
    ∧ (∀ pa sha, (fetchAndStore env info fp).res = .ok (pa, sha) →
      pa = fp ∧ sha = info.sha256Sum ∧
      ∃ w, fsGet (applyOps fs (fetchAndStore env info fp).ops) fp = some w ∧ env.hash w = sha)
    ∧ (fetchAndStore env info fp).downloaded = true := by
  have hne : fp ≠ fp ++ ".tmp" := (append_tmp_ne fp).symm
  rcases fetchAndStore_cases env info fp with ⟨e0, heq⟩ | ⟨e0, w, heq⟩ | ⟨body, heq, hbody⟩
  · rw [heq]
    refine ⟨fun e _ => rfl, fun pa sha h => Except.noConfusion h, rfl⟩
  · rw [heq]
    refine ⟨?_, fun pa sha h => Except.noConfusion h, rfl⟩
    intro e _
    simp only [applyOps, List.foldl, applyOp]
    rw [fsGet_remove_ne _ hne, fsGet_set_ne _ _ hne, fsGet_set_ne _ _ hne]
  · rw [heq]
    refine ⟨fun e h => Except.noConfusion h, ?_, rfl⟩
    intro pa sha h
    injection h with h2
    rw [Prod.mk.injEq] at h2
    obtain ⟨hpa, hsha⟩ := h2
    subst hpa
    subst hsha
    refine ⟨rfl, hbody, body, ?_, rfl⟩
    simp only [applyOps, List.foldl, applyOp]
    rw [fsGet_set_self]
    exact fsGet_set_self _ _ _

/-- C4 counterexample: with an existing cached file `[1, 2, 3]` whose digest
`"3"` differs from the descriptor's expected `"2"`, `DownloadAndCacheProvider`
does NOT return an error: it re-downloads, succeeds, and overwrites the
existing file with the fresh body `[7, 9]`. -/
theorem downloadAndCache_mismatch_not_error :
    demoHash [1, 2, 3] ≠ demoInfo.sha256Sum
    ∧ fsGet [(demoFilePath, [1, 2, 3])] demoFilePath = some [1, 2, 3]
    ∧ (downloadAndCacheProvider demoDacEnv "/data" "hashicorp" "aws" "5.0.0" "linux" "amd64"
        [(demoFilePath, [1, 2, 3])]).res = .ok (demoFilePath, "2")
    ∧ fsGet (applyOps [(demoFilePath, [1, 2, 3])]
        (downloadAndCacheProvider demoDacEnv "/data" "hashicorp" "aws" "5.0.0" "linux" "amd64"
          [(demoFilePath, [1, 2, 3])]).ops) demoFilePath = some [7, 9] :=
  ⟨by decide, rfl, rfl, rfl⟩

/-- C4 (amended): a cached file whose digest differs from the descriptor's
expected checksum is never served as a cache hit; `DownloadAndCacheProvider`
attempts the binary download again and either fails, leaving the existing file
byte-for-byte unchanged, or succeeds, replacing it with content whose digest
equals the descriptor's expected checksum — the mismatch itself is not an error
and the file is overwritten (by verified content only) rather than preserved. -/
theorem downloadAndCache_mismatch_redownload (env : DacEnv)
    (sp nspace nm ver osT ar : String) (fs : FS) (t : String) (c : Bytes) (info : DownloadInfo)
    (htarget : (downloadAndCacheProvider env sp nspace nm ver osT ar fs).target = some t)
    (hold : fsGet fs t = some c)
    (hinfo : env.getInfo = .ok info)
    (hmis : env.hash c ≠ info.sha256Sum) :
    (downloadAndCacheProvider env sp nspace nm ver osT ar fs).downloaded = true
    ∧ (∀ e, (downloadAndCacheProvider env sp nspace nm ver osT ar fs).res = .error e →
      fsGet (applyOps fs (downloadAndCacheProvider env sp nspace nm ver osT ar fs).ops) t = some c)
    ∧ (∀ pa sha,
      (downloadAndCacheProvider env sp nspace nm ver osT ar fs).res = .ok (pa, sha) →
      pa = t ∧ sha = info.sha256Sum ∧
      ∃ w,
        fsGet (applyOps fs (downloadAndCacheProvider env sp nspace nm ver osT ar fs).ops) t = some w ∧
        env.hash w = sha) := by
  unfold downloadAndCacheProvider at htarget ⊢
  split at htarget
  · exact Option.noConfusion htarget
  · split at htarget
    · exact Option.noConfusion htarget
    · rename_i info' heqInfo
      rw [hinfo] at heqInfo
      injection heqInfo with heqInfo'
      subst heqInfo'
      split at htarget
      · exact Option.noConfusion htarget
      · rename_i safeFilename heqSan
        dsimp only at htarget ⊢
        split at htarget
        · rename_i existing hget
          split at htarget
          · rename_i hguard
            injection htarget with htt
            subst htt
            rw [hget] at hold
            injection hold with hce
            subst hce
            exact absurd hguard hmis
          · rename_i hng
            rw [fetchAndStore_target] at htarget
            injection htarget with htt
            subst htt
            rw [if_neg hng]
            obtain ⟨g1, g2, g3⟩ := fetchAndStore_final_at_target env info _ fs
            exact ⟨g3, fun e he => (g1 e he).trans hold, g2⟩
        · rename_i hget
          rw [fetchAndStore_target] at htarget
          injection htarget with htt
          subst htt
          rw [hget] at hold
          exact Option.noConfusion hold

/-- Witness for C4 (amended) at a concrete mismatching cache state: the run
attempts the binary download rather than serving the stale file. -/
theorem downloadAndCache_mismatch_redownload_witness :
    (downloadAndCacheProvider demoDacEnv "/data" "hashicorp" "aws" "5.0.0" "linux" "amd64"
      [(demoFilePath, [1, 2, 3])]).downloaded = true :=
  (downloadAndCache_mismatch_redownload demoDacEnv "/data" "hashicorp" "aws" "5.0.0" "linux"
    "amd64" [(demoFilePath, [1, 2, 3])] demoFilePath [1, 2, 3] demoInfo rfl rfl rfl
    (by decide)).1

theorem dac_unfold_ok (env : DacEnv) (sp nspace nm ver osT ar : String)
    (dirPath : String) (info : DownloadInfo) (sf : String)
    (hB : buildSafeProviderPath sp nspace nm ver osT ar = .ok dirPath)
    (hI : env.getInfo = .ok info)
    (hS : sanitizeFilename info.filename = .ok sf) :
    ∀ fs : FS, downloadAndCacheProvider env sp nspace nm ver osT ar fs =
      match fsGet fs (goJoin [dirPath, sf]) with
      | some existing =>
        if env.hash existing = info.sha256Sum then
          ⟨.ok (goJoin [dirPath, sf], env.hash existing), [], some (goJoin [dirPath, sf]), false⟩
        else fetchAndStore env info (goJoin [dirPath, sf])
      | none => fetchAndStore env info (goJoin [dirPath, sf]) := by
  intro fs
  unfold downloadAndCacheProvider
  rw [hB]
  dsimp only
  rw [hI]
  dsimp only
  rw [hS]

theorem dac_unfold_err (env : DacEnv) (sp nspace nm ver osT ar : String) (fs : FS) :
    ((∃ e, buildSafeProviderPath sp nspace nm ver osT ar = .error e)
      ∨ (∃ e, env.getInfo = .error e)
      ∨ (∃ i, env.getInfo = .ok i ∧ ∃ e, sanitizeFilename i.filename = .error e)) →
    ∃ e, downloadAndCacheProvider env sp nspace nm ver osT ar fs = ⟨.error e, [], none, false⟩ := by
  intro h
  rcases h with ⟨e, hB⟩ | ⟨e, hI⟩ | ⟨i, hI, e, hS⟩
  · refine ⟨e, ?_⟩
    unfold downloadAndCacheProvider
    rw [hB]
  · cases hB : buildSafeProviderPath sp nspace nm ver osT ar with
    | error e2 =>
      refine ⟨e2, ?_⟩
      unfold downloadAndCacheProvider
      rw [hB]
    | ok dirPath =>
      refine ⟨e, ?_⟩
      unfold downloadAndCacheProvider
      rw [hB]
      dsimp only
      rw [hI]
  · cases hB : buildSafeProviderPath sp nspace nm ver osT ar with
    | error e2 =>
      refine ⟨e2, ?_⟩
      unfold downloadAndCacheProvider
      rw [hB]
    | ok dirPath =>
      refine ⟨e, ?_⟩
      unfold downloadAndCacheProvider
      rw [hB]
      dsimp only
      rw [hI]
      dsimp only
      rw [hS]

/-- C5: if a run of `DownloadAndCacheProvider` succeeds, running it again in
the same environment on the resulting filesystem returns the same path and the
same checksum, performs no filesystem operation, and does not attempt the
binary download — the second call is a pure cache hit, so the pair of calls
downloads the binary at most once. -/
theorem downloadAndCacheProvider_idempotent (env : DacEnv)
    (sp nspace nm ver osT ar : String) (fs : FS) (p sha : String)
    (h : (downloadAndCacheProvider env sp nspace nm ver osT ar fs).res = .ok (p, sha)) :
    (downloadAndCacheProvider env sp nspace nm ver osT ar
        (applyOps fs (downloadAndCacheProvider env sp nspace nm ver osT ar fs).ops)).res
      = .ok (p, sha)
    ∧ (downloadAndCacheProvider env sp nspace nm ver osT ar
        (applyOps fs (downloadAndCacheProvider env sp nspace nm ver osT ar fs).ops)).ops = []
    ∧ (downloadAndCacheProvider env sp nspace nm ver osT ar
        (applyOps fs (downloadAndCacheProvider env sp nspace nm ver osT ar fs).ops)).downloaded
      = false := by
  cases hB : buildSafeProviderPath sp nspace nm ver osT ar with
  | error e =>
    obtain ⟨e2, hd⟩ := dac_unfold_err env sp nspace nm ver osT ar fs (Or.inl ⟨e, hB⟩)
    rw [hd] at h
    exact Except.noConfusion h
  | ok dirPath =>
  cases hI : env.getInfo with
  | error e =>
    obtain ⟨e2, hd⟩ := dac_unfold_err env sp nspace nm ver osT ar fs (Or.inr (Or.inl ⟨e, hI⟩))
    rw [hd] at h
    exact Except.noConfusion h
  | ok info =>
  cases hS : sanitizeFilename info.filename with
  | error e =>
    obtain ⟨e2, hd⟩ :=
      dac_unfold_err env sp nspace nm ver osT ar fs (Or.inr (Or.inr ⟨info, hI, e, hS⟩))
    rw [hd] at h
    exact Except.noConfusion h
  | ok sf =>
    have hrw := dac_unfold_ok env sp nspace nm ver osT ar dirPath info sf hB hI hS
    rw [hrw fs] at h
    cases hget : fsGet fs (goJoin [dirPath, sf]) with
    | some existing =>
      rw [hget] at h
      dsimp only at h
      by_cases hguard : env.hash existing = info.sha256Sum
      · rw [if_pos hguard] at h
        injection h with h2
        rw [Prod.mk.injEq] at h2
        obtain ⟨hp, hsha⟩ := h2
        have hd : downloadAndCacheProvider env sp nspace nm ver osT ar fs =
            ⟨.ok (goJoin [dirPath, sf], env.hash existing), [], some (goJoin [dirPath, sf]), false⟩ := by
          rw [hrw fs, hget]
          dsimp only
          rw [if_pos hguard]
        rw [hd]
        dsimp only [applyOps, List.foldl]
        rw [hrw fs, hget]
        dsimp only
        rw [if_pos hguard]
        refine ⟨?_, rfl, rfl⟩
        rw [← hp, ← hsha]
      · rw [if_neg hguard] at h
        obtain ⟨g1, g2, g3⟩ := fetchAndStore_final_at_target env info (goJoin [dirPath, sf]) fs
        obtain ⟨hp, hsha, w, hw, hhw⟩ := g2 p sha h
        have hd : downloadAndCacheProvider env sp nspace nm ver osT ar fs =
            fetchAndStore env info (goJoin [dirPath, sf]) := by
          rw [hrw fs, hget]
          dsimp only
          rw [if_neg hguard]
        rw [hd]
        rw [hrw (applyOps fs (fetchAndStore env info (goJoin [dirPath, sf])).ops), hw]
        dsimp only
        rw [if_pos (show env.hash w = info.sha256Sum from hsha ▸ hhw)]
        refine ⟨?_, rfl, rfl⟩
        rw [hp, hhw]
    | none =>
      rw [hget] at h
      dsimp only at h
      obtain ⟨g1, g2, g3⟩ := fetchAndStore_final_at_target env info (goJoin [dirPath, sf]) fs
      obtain ⟨hp, hsha, w, hw, hhw⟩ := g2 p sha h
      have hd : downloadAndCacheProvider env sp nspace nm ver osT ar fs =
          fetchAndStore env info (goJoin [dirPath, sf]) := by
        rw [hrw fs, hget]
      rw [hd]
      rw [hrw (applyOps fs (fetchAndStore env info (goJoin [dirPath, sf])).ops), hw]
      dsimp only
      rw [if_pos (show env.hash w = info.sha256Sum from hsha ▸ hhw)]
      refine ⟨?_, rfl, rfl⟩
      rw [hp, hhw]

/-- Witness for C5: after the concrete successful run of
`downloadAndCacheProvider_atomic_witness`, the second call returns the same
path and checksum with no filesystem operation and no download. -/
theorem downloadAndCacheProvider_idempotent_witness :
    (downloadAndCacheProvider demoDacEnv "/data" "hashicorp" "aws" "5.0.0" "linux" "amd64"
        (applyOps ([] : FS)
          (downloadAndCacheProvider demoDacEnv "/data" "hashicorp" "aws" "5.0.0" "linux" "amd64"
            []).ops)).res = .ok (demoFilePath, "2")
    ∧ (downloadAndCacheProvider demoDacEnv "/data" "hashicorp" "aws" "5.0.0" "linux" "amd64"
        (applyOps ([] : FS)
          (downloadAndCacheProvider demoDacEnv "/data" "hashicorp" "aws" "5.0.0" "linux" "amd64"
            []).ops)).ops = []
    ∧ (downloadAndCacheProvider demoDacEnv "/data" "hashicorp" "aws" "5.0.0" "linux" "amd64"
        (applyOps ([] : FS)
          (downloadAndCacheProvider demoDacEnv "/data" "hashicorp" "aws" "5.0.0" "linux" "amd64"
            []).ops)).downloaded = false :=
  downloadAndCacheProvider_idempotent demoDacEnv "/data" "hashicorp" "aws" "5.0.0" "linux"
    "amd64" [] demoFilePath "2" rfl

theorem downloadPlatformsLoop_fst_empty_iff
    (dl : platformInfo → Except String (String × String)) (fsize : String → Nat) :
    ∀ (l : List platformInfo) (acc : List ProviderPlatform) (le : Option String),
      ((downloadPlatformsLoop dl fsize acc le l).1 = [] ↔
        acc = [] ∧ ∀ p ∈ l, (dl p).toOption = none) := by
  intro l
  induction l with
  | nil => intro acc le; simp [downloadPlatformsLoop]
  | cons p rest ih =>
    intro acc le
    cases hdl : dl p with
    | error e =>
      simp only [downloadPlatformsLoop, hdl, ih]
      constructor
      · rintro ⟨ha, hall⟩
        refine ⟨ha, ?_⟩
        intro q hq
        rcases List.mem_cons.mp hq with rfl | hq2
        · rw [hdl]; rfl
        · exact hall q hq2
      · rintro ⟨ha, hall⟩
        exact ⟨ha, fun q hq => hall q (List.mem_cons_of_mem p hq)⟩
    | ok v =>
      obtain ⟨fp, sha⟩ := v
      simp only [downloadPlatformsLoop, hdl, ih]
      constructor
      · rintro ⟨ha, -⟩
        exact absurd ha (by simp)
      · rintro ⟨-, hall⟩
        have := hall p (List.mem_cons_self p rest)
        rw [hdl] at this
        exact Option.noConfusion this

theorem downloadPlatformsLoop_snd_all_fail
    (dl : platformInfo → Except String (String × String)) (fsize : String → Nat) :
    ∀ (l : List platformInfo) (acc : List ProviderPlatform) (le : Option String),
      l ≠ [] → (∀ p ∈ l, ∃ e, dl p = .error e) →
      ∃ p e, l.getLast? = some p ∧ dl p = .error e ∧
        (downloadPlatformsLoop dl fsize acc le l).2 = some e := by
  intro l
  induction l with
  | nil => intro acc le h; exact absurd rfl h
  | cons p rest ih =>
    intro acc le _ hall
    obtain ⟨e, hdl⟩ := hall p (List.mem_cons_self p rest)
    cases rest with
    | nil =>
      exact ⟨p, e, rfl, hdl, by simp [downloadPlatformsLoop, hdl]⟩
    | cons r rest2 =>
      obtain ⟨q, e2, hlast, hdq, hsnd⟩ :=
        ih acc (some e) (by simp) (fun q hq => hall q (List.mem_cons_of_mem p hq))
      refine ⟨q, e2, ?_, hdq, ?_⟩
      · rwa [List.getLast?_cons_cons]
      · rwa [downloadPlatformsLoop, hdl]

/-- C6: once platform resolution has succeeded, the platform list is nonempty
and the mirror operation reports overall failure exactly when every platform's
download failed, attaching the last platform's error to that failure; a single
successful platform makes the operation report success. -/
theorem mirrorProvider_error_aggregation
    (getVersions : Except String VersionsResponse)
    (dl : platformInfo → Except String (String × String)) (fsize : String → Nat)
    (version osType arch : String) (platforms : List platformInfo) (resolved : String)
    (hfetch : fetchPlatformsToMirror getVersions version osType arch = .ok (platforms, resolved)) :
    platforms ≠ []
    ∧ ((∃ le, mirrorProvider getVersions dl fsize version osType arch = .failedAll le)
        ↔ ∀ p ∈ platforms, (dl p).toOption = none)
    ∧ (∀ le, mirrorProvider getVersions dl fsize version osType arch = .failedAll le →
        ∃ p e, platforms.getLast? = some p ∧ dl p = .error e ∧ le = some e)
    ∧ (∀ p r, p ∈ platforms → dl p = .ok r →
        ∃ ms, mirrorProvider getVersions dl fsize version osType arch = .mirrored ms ∧ ms ≠ []) := by
  have hne : platforms ≠ [] := by
    intro hnil
    unfold fetchPlatformsToMirror at hfetch
    split at hfetch
    · exact Except.noConfusion hfetch
    · split at hfetch
      · exact Except.noConfusion hfetch
      · dsimp only at hfetch
        split at hfetch
        · exact Except.noConfusion hfetch
        · rename_i hpe
          injection hfetch with h2
          rw [Prod.mk.injEq] at h2
          apply hpe
          rw [h2.1, hnil]
          rfl
  have hmp : mirrorProvider getVersions dl fsize version osType arch =
      (if (downloadPlatforms dl fsize platforms).1.length = 0 then
        .failedAll (downloadPlatforms dl fsize platforms).2
      else .mirrored (downloadPlatforms dl fsize platforms).1) := by
    unfold mirrorProvider
    rw [hfetch]
  have hempty := downloadPlatformsLoop_fst_empty_iff dl fsize platforms [] none
  refine ⟨hne, ?_, ?_, ?_⟩
  · constructor
    · rintro ⟨le, hm⟩
      rw [hmp] at hm
      split at hm
      · rename_i hlen
        rw [List.length_eq_zero] at hlen
        exact ((hempty.mp hlen).2)
      · exact MirrorOutcome.noConfusion hm
    · intro hall
      have hnil : (downloadPlatforms dl fsize platforms).1 = [] :=
        hempty.mpr ⟨rfl, hall⟩
      refine ⟨(downloadPlatforms dl fsize platforms).2, ?_⟩
      rw [hmp, if_pos (by rw [hnil]; rfl)]
  · intro le hm
    rw [hmp] at hm
    split at hm
    · rename_i hlen
      rw [List.length_eq_zero] at hlen
      have hall := (hempty.mp hlen).2
      have hallE : ∀ p ∈ platforms, ∃ e, dl p = .error e := by
        intro p hp
        have := hall p hp
        cases hdl : dl p with
        | error e => exact ⟨e, rfl⟩
        | ok v => rw [hdl] at this; exact Option.noConfusion this
      obtain ⟨p, e, hlast, hdp, hsnd⟩ :=
        downloadPlatformsLoop_snd_all_fail dl fsize platforms [] none hne hallE
      injection hm with hle
      exact ⟨p, e, hlast, hdp, by rw [← hle]; exact hsnd⟩
    · exact MirrorOutcome.noConfusion hm
  · intro p r hp hdl
    have hnn : (downloadPlatforms dl fsize platforms).1 ≠ [] := by
      intro hnil
      have := (hempty.mp hnil).2 p hp
      rw [hdl] at this
      exact Option.noConfusion this
    refine ⟨(downloadPlatforms dl fsize platforms).1, ?_, hnn⟩
    rw [hmp, if_neg (by rw [List.length_eq_zero]; exact hnn)]

/-- Witness for C6: with one failing and one succeeding platform, the mirror
operation reports success with a nonempty platform list. -/
theorem mirrorProvider_error_aggregation_witness :
    ∃ ms,
      mirrorProvider (.ok demoVersions)
        (fun p => if p.arch == "amd64" then .error "connection reset" else .ok ("/f", "s"))
        (fun _ => 42) "" "linux" "all" = .mirrored ms ∧ ms ≠ [] :=
  (mirrorProvider_error_aggregation (.ok demoVersions)
    (fun p => if p.arch == "amd64" then .error "connection reset" else .ok ("/f", "s"))
    (fun _ => 42) "" "linux" "all"
    [⟨"linux", "amd64"⟩, ⟨"linux", "arm64"⟩] "1.0.0" rfl).2.2.2
    ⟨"linux", "arm64"⟩ ("/f", "s") (by decide) rfl

/-- C7: platform resolution uses the first (most recent) version entry when the
requested version is empty; it keeps exactly the platforms whose OS matches the
filter (or the filter is "all") and likewise for arch; fetching errors when the
upstream call fails, when no versions are available, or when the filter leaves
nothing; and on the spec's worked example (os=linux, arch=all over
{linux/amd64, linux/arm64, darwin/amd64}) it returns exactly
{linux/amd64, linux/arm64}. -/
theorem resolvePlatforms_spec :
    (∀ (vr : VersionsResponse) (v0 : Version) (rest : List Version) (o a : String),
      vr.versions = v0 :: rest →
      (getPlatformsForVersion vr "" o a).2 = v0.version
      ∧ (getPlatformsForVersion vr "" o a).1 =
          (v0.platforms.filter
            (fun p => (o == "all" || o == p.os) && (a == "all" || a == p.arch))).map
            (fun p => { os := p.os, arch := p.arch }))
    ∧ (∀ (vr : VersionsResponse) (ver o a : String), ver ≠ "" →
        (getPlatformsForVersion vr ver o a).2 = ver
        ∧ ∀ q : platformInfo,
          (q ∈ (getPlatformsForVersion vr ver o a).1 ↔
            ∃ e, vr.versions.find? (fun v => v.version == ver) = some e ∧
              ∃ p, p ∈ e.platforms ∧ (o = "all" ∨ o = p.os) ∧ (a = "all" ∨ a = p.arch) ∧
                q = { os := p.os, arch := p.arch }))
    ∧ (∀ e ver o a, fetchPlatformsToMirror (.error e) ver o a =
        .error ("failed to get versions: " ++ e))
    ∧ (∀ ver o a, fetchPlatformsToMirror (.ok ⟨[]⟩) ver o a = .error "no versions available")
    ∧ (∀ (vr : VersionsResponse) (ver o a : String), vr.versions.isEmpty = false →
        ((getPlatformsForVersion vr ver o a).1 = [] →
          fetchPlatformsToMirror (.ok vr) ver o a = .error "no matching platforms found")
        ∧ ((getPlatformsForVersion vr ver o a).1 ≠ [] →
          fetchPlatformsToMirror (.ok vr) ver o a = .ok (getPlatformsForVersion vr ver o a)))
    ∧ fetchPlatformsToMirror (.ok demoVersions) "" "linux" "all"
        = .ok ([⟨"linux", "amd64"⟩, ⟨"linux", "arm64"⟩], "1.0.0") := by
  refine ⟨?_, ?_, ?_, ?_, ?_, ?_⟩
  · intro vr v0 rest o a hv
    have hfind : (v0 :: rest).find? (fun v => v.version == v0.version) = some v0 :=
      List.find?_cons_of_pos rest (by simp)
    constructor
    · simp [getPlatformsForVersion, hv]
    · simp [getPlatformsForVersion, hv, hfind]
  · intro vr ver o a hne
    have hres : (match vr.versions with
        | [] => ver
        | v0 :: _ => if ver = "" then v0.version else ver) = ver := by
      cases vr.versions with
      | nil => rfl
      | cons v0 rest => exact if_neg hne
    constructor
    · simp only [getPlatformsForVersion]
      rw [hres]
    · intro q
      simp only [getPlatformsForVersion]
      rw [hres]
      cases hfind : vr.versions.find? (fun v => v.version == ver) with
      | none => simp
      | some e =>
        simp [List.mem_map, List.mem_filter, Bool.and_eq_true, Bool.or_eq_true,
          beq_iff_eq]
        constructor
        · rintro ⟨p, ⟨hp, ho, ha⟩, hq⟩
          exact ⟨p, hp, ho, ha, hq.symm⟩
        · rintro ⟨p, hp, ho, ha, hq⟩
          exact ⟨p, ⟨hp, ho, ha⟩, hq.symm⟩
  · intro e ver o a
    rfl
  · intro ver o a
    rfl
  · intro vr ver o a hvne
    have hok : fetchPlatformsToMirror (.ok vr) ver o a =
        if vr.versions.isEmpty then .error "no versions available"
        else if (getPlatformsForVersion vr ver o a).1.isEmpty then
          .error "no matching platforms found"
        else .ok (getPlatformsForVersion vr ver o a) := rfl
    constructor
    · intro hempty
      rw [hok, if_neg (by rw [hvne]; exact Bool.false_ne_true),
        if_pos (by rw [hempty]; rfl)]
    · intro hnempty
      rw [hok, if_neg (by rw [hvne]; exact Bool.false_ne_true),
        if_neg (by rw [List.isEmpty_iff]; exact hnempty)]
  · rfl

/-- Witness for C7 at the spec's worked example: the empty version resolves to
the first entry's version. -/
theorem resolvePlatforms_spec_witness :
    (getPlatformsForVersion demoVersions "" "linux" "all").2 = "1.0.0" :=
  (resolvePlatforms_spec.1 demoVersions _ [] "linux" "all" rfl).1

/-- C8 counterexample: a successful import extraction writes straight to the
final path — its trace is `create` then `write`, with no rename of any kind —
and after the first operation the final path is visible holding the empty
(partially written) file, whose contents differ from the final `[1, 2]`.  The
claimed temp-file-then-rename sequence is absent. -/
theorem extractZipFile_not_atomic :
    (extractZipFile demoZipEnv "/data" "hashicorp" "aws" "5.0.0" demoPM).res =
      .ok "/data/hashicorp/aws/5.0.0/linux/amd64/provider.zip"
    ∧ fsGet (applyOps ([] : FS)
        ((extractZipFile demoZipEnv "/data" "hashicorp" "aws" "5.0.0" demoPM).ops.take 1))
        "/data/hashicorp/aws/5.0.0/linux/amd64/provider.zip" = some []
    ∧ fsGet (applyOps ([] : FS)
        (extractZipFile demoZipEnv "/data" "hashicorp" "aws" "5.0.0" demoPM).ops)
        "/data/hashicorp/aws/5.0.0/linux/amd64/provider.zip" = some [1, 2]
    ∧ ((extractZipFile demoZipEnv "/data" "hashicorp" "aws" "5.0.0" demoPM).ops.all
        (fun op => match op with | .rename _ _ => false | _ => true)) = true :=
  ⟨rfl, rfl, rfl, rfl⟩

theorem importStep_mem (ex : PlatformManifest → ExtractOut) (entries : List ZipEntry)
    (acc : List PlatformManifest) (pm q : PlatformManifest) :
    q ∈ importStep ex entries acc pm ↔
      q ∈ acc ∨ (q = pm ∧
        ∃ zf, findFileInZip entries q.zipPath = some zf ∧ ¬zf.size > maxFileSize ∧
          ∃ fp, (ex q).res = .ok fp) := by
  unfold importStep
  cases hfind : findFileInZip entries pm.zipPath with
  | none =>
    simp only [iff_self_or]
    rintro ⟨rfl, zf, hf, -⟩
    rw [hfind] at hf
    exact Option.noConfusion hf
  | some zf =>
    dsimp only
    by_cases hsize : zf.size > maxFileSize
    · rw [if_pos hsize]
      simp only [iff_self_or]
      rintro ⟨rfl, zf2, hf, hs2, -⟩
      rw [hfind] at hf
      injection hf with hzz
      exact (hs2 (hzz ▸ hsize)).elim
    · rw [if_neg hsize]
      cases hex : (ex pm).res with
      | error e =>
        simp only [iff_self_or]
        rintro ⟨rfl, -, -, -, fp, hfp⟩
        rw [hex] at hfp
        exact Except.noConfusion hfp
      | ok fp =>
        simp only [List.mem_append, List.mem_singleton]
        constructor
        · rintro (hq | rfl)
          · exact Or.inl hq
          · exact Or.inr ⟨rfl, zf, hfind, hsize, fp, hex⟩
        · rintro (hq | ⟨rfl, -⟩)
          · exact Or.inl hq
          · exact Or.inr rfl

theorem extractPlatformsFromZip_loop_mem (ex : PlatformManifest → ExtractOut)
    (entries : List ZipEntry) :
    ∀ (l : List PlatformManifest) (acc : List PlatformManifest) (q : PlatformManifest),
      q ∈ l.foldl (importStep ex entries) acc ↔
        q ∈ acc ∨ (q ∈ l ∧
          ∃ zf, findFileInZip entries q.zipPath = some zf ∧ ¬zf.size > maxFileSize ∧
            ∃ fp, (ex q).res = .ok fp) := by
  intro l
  induction l with
  | nil => intro acc q; simp
  | cons pm rest ih =>
    intro acc q
    rw [List.foldl_cons, ih, importStep_mem]
    simp only [List.mem_cons]
    constructor
    · rintro ((hq | ⟨rfl, hg⟩) | ⟨hq, hg⟩)
      · exact Or.inl hq
      · exact Or.inr ⟨Or.inl rfl, hg⟩
      · exact Or.inr ⟨Or.inr hq, hg⟩
    · rintro (hq | ⟨rfl | hq, hg⟩)
      · exact Or.inl (Or.inl hq)
      · exact Or.inl (Or.inr ⟨rfl, hg⟩)
      · exact Or.inr ⟨hq, hg⟩

/-- C8 (amended): the import extraction routes every platform entry through
`BuildSafeProviderPath` and `SanitizeFilename` and skips archive members that
are missing or above the 500MB cap, but its write is direct, not atomic: on
success the final path receives the copied bytes through a plain
create-then-write (no rename appears in the trace, so a partially written file
is visible at the final path mid-copy — see the counterexample); on a copy
failure the file at the final path is removed (even a pre-existing one,
destroyed by the truncating create). -/
theorem extractZipFile_direct_write (env : ZipEnv) (sp nspace nm ver : String)
    (pm : PlatformManifest) (fs : FS) :
    (∀ e, buildSafeProviderPath sp nspace nm ver pm.os pm.arch = .error e →
      extractZipFile env sp nspace nm ver pm =
        ⟨.error ("invalid path components: " ++ e), [], none⟩)
    ∧ (∀ dirPath e, buildSafeProviderPath sp nspace nm ver pm.os pm.arch = .ok dirPath →
        env.mkdirOk = true → sanitizeFilename pm.filename = .error e →
        extractZipFile env sp nspace nm ver pm = ⟨.error ("invalid filename: " ++ e), [], none⟩)
    ∧ (∀ fp, (extractZipFile env sp nspace nm ver pm).res = .ok fp →
        ∃ w, env.zipRead = .copied w true ∧
          (extractZipFile env sp nspace nm ver pm).ops =
            [.create fp, .write fp (w.take maxFileSize)] ∧
          fsGet (applyOps fs (extractZipFile env sp nspace nm ver pm).ops) fp =
            some (w.take maxFileSize))
    ∧ (∀ t w, (extractZipFile env sp nspace nm ver pm).target = some t →
        env.createOk = true → env.zipRead = .copied w false →
        fsGet (applyOps fs (extractZipFile env sp nspace nm ver pm).ops) t = none)
    ∧ ((extractZipFile env sp nspace nm ver pm).ops.all
        (fun op => match op with | .rename _ _ => false | _ => true)) = true
    ∧ (∀ (ex : PlatformManifest → ExtractOut) (entries : List ZipEntry)
        (platforms : List PlatformManifest) (q : PlatformManifest),
        q ∈ extractPlatformsFromZip ex entries platforms ↔
          q ∈ platforms ∧ ∃ zf, findFileInZip entries q.zipPath = some zf ∧
            ¬zf.size > maxFileSize ∧ ∃ fp, (ex q).res = .ok fp) := by
  refine ⟨?_, ?_, ?_, ?_, ?_, ?_⟩
  · intro e hB
    unfold extractZipFile
    rw [hB]
  · intro dirPath e hB hmk hS
    unfold extractZipFile
    rw [hB]
    dsimp only
    rw [if_neg (by rw [hmk]; simp), hS]
  · intro fp hres
    unfold extractZipFile at hres ⊢
    split at hres
    · exact Except.noConfusion hres
    · split at hres
      · exact Except.noConfusion hres
      · rename_i hmk
        split at hres
        · exact Except.noConfusion hres
        · dsimp only at hres ⊢
          split at hres
          · exact Except.noConfusion hres
          · rename_i hcr
            split at hres
            · exact Except.noConfusion hres
            · rename_i written ok hread
              split at hres
              · rename_i hok
                injection hres with hfp
                subst hfp
                subst hok
                refine ⟨written, hread, ?_, ?_⟩
                · rw [if_neg hmk, if_neg hcr, if_pos rfl]
                · rw [if_neg hmk, if_neg hcr, if_pos rfl]
                  simp only [applyOps, List.foldl, applyOp]
                  exact fsGet_set_self _ _ _
              · exact Except.noConfusion hres
  · intro t w htarget hcreate hread
    unfold extractZipFile at htarget ⊢
    split at htarget
    · exact Option.noConfusion htarget
    · split at htarget
      · exact Option.noConfusion htarget
      · rename_i hmk
        split at htarget
        · exact Option.noConfusion htarget
        · dsimp only at htarget ⊢
          rw [if_neg hmk]
          rw [hread] at htarget ⊢
          rw [if_neg (by rw [hcreate]; simp)] at htarget ⊢
          dsimp only at htarget ⊢
          rw [if_neg Bool.false_ne_true] at htarget ⊢
          injection htarget with htt
          subst htt
          simp only [applyOps, List.foldl, applyOp]
          exact fsGet_remove_self _ _
  · unfold extractZipFile
    split
    · rfl
    · split
      · rfl
      · split
        · rfl
        · dsimp only
          split
          · rfl
          · split
            · rfl
            · split
              · rfl
              · rfl
  · intro ex entries platforms q
    exact extractPlatformsFromZip_loop_mem ex entries platforms [] q |>.trans (by simp)

/-- Witness for C8 (amended) at the concrete successful import. -/
theorem extractZipFile_direct_write_witness :
    ∃ w, demoZipEnv.zipRead = .copied w true ∧
      (extractZipFile demoZipEnv "/data" "hashicorp" "aws" "5.0.0" demoPM).ops =
        [.create "/data/hashicorp/aws/5.0.0/linux/amd64/provider.zip",
         .write "/data/hashicorp/aws/5.0.0/linux/amd64/provider.zip" (w.take maxFileSize)] ∧
      fsGet (applyOps ([] : FS)
          (extractZipFile demoZipEnv "/data" "hashicorp" "aws" "5.0.0" demoPM).ops)
        "/data/hashicorp/aws/5.0.0/linux/amd64/provider.zip" = some (w.take maxFileSize) :=
  (extractZipFile_direct_write demoZipEnv "/data" "hashicorp" "aws" "5.0.0" demoPM []).2.2.1
    "/data/hashicorp/aws/5.0.0/linux/amd64/provider.zip" rfl

theorem nrGet_remove_ne (l : List (Nat × Nat)) {k q : Nat} (h : q ≠ k) :
    nrGet (nrRemove l k) q = nrGet l q := by
  induction l with
  | nil => rfl
  | cons e t ih =>
    obtain ⟨a, v⟩ := e
    by_cases ha : a = k
    · subst ha
      have : ¬a = q := fun e => h e.symm
      simp [nrRemove, nrGet, this, ih]
    · simp only [nrRemove, if_neg ha]
      by_cases hq : a = q <;> simp [nrGet, hq, ih]

theorem nrGet_set_self (l : List (Nat × Nat)) (k v : Nat) :
    nrGet (nrSet l k v) k = some v := by
  simp [nrSet, nrGet]

theorem nrGet_set_ne (l : List (Nat × Nat)) (v : Nat) {k q : Nat} (h : q ≠ k) :
    nrGet (nrSet l k v) q = nrGet l q := by
  have : k ≠ q := fun e => h e.symm
  simp [nrSet, nrGet, this, nrGet_remove_ne l h]

theorem refreshStep_jobs_other (cron : CronEnv) (acc : SchedState) (row : SyncSchedule)
    {i : Nat} (h : row.id ≠ i) :
    (i ∈ (refreshStep cron acc row).jobs ↔ i ∈ acc.jobs) := by
  unfold refreshStep addJob removeJob
  split
  · split
    · exact Iff.rfl
    · rename_i hc
      split
      · dsimp only
        simp [List.mem_append, (show ¬i = row.id from fun e => h e.symm)]
      · exact Iff.rfl
  · exact List.mem_erase_of_ne (fun e => h e.symm)

theorem refreshStep_nr_other (cron : CronEnv) (acc : SchedState) (row : SyncSchedule)
    {i : Nat} (h : row.id ≠ i) :
    nrGet (refreshStep cron acc row).nextRun i = nrGet acc.nextRun i := by
  unfold refreshStep addJob removeJob
  split
  · split
    · rfl
    · split
      · dsimp only
        exact nrGet_set_ne _ _ (fun e => h e.symm)
      · rfl
  · rfl

theorem refreshStep_nodup (cron : CronEnv) (acc : SchedState) (row : SyncSchedule)
    (h : acc.jobs.Nodup) : (refreshStep cron acc row).jobs.Nodup := by
  unfold refreshStep addJob removeJob
  split
  · split
    · exact h
    · rename_i hc
      split
      · dsimp only
        have hnm : row.id ∉ acc.jobs := by simpa using hc
        simp [List.nodup_append, h, hnm]
      · exact h
  · exact h.erase _

theorem refreshFold_jobs_other (cron : CronEnv) :
    ∀ (l : List SyncSchedule) (acc : SchedState) (i : Nat),
      (∀ row ∈ l, row.id ≠ i) →
      (i ∈ (l.foldl (refreshStep cron) acc).jobs ↔ i ∈ acc.jobs) := by
  intro l
  induction l with
  | nil => intro acc i _; exact Iff.rfl
  | cons r rest ih =>
    intro acc i hall
    rw [List.foldl_cons,
      ih _ i (fun row hr => hall row (List.mem_cons_of_mem r hr))]
    exact refreshStep_jobs_other cron acc r (hall r (List.mem_cons_self r rest))

theorem refreshFold_nr_other (cron : CronEnv) :
    ∀ (l : List SyncSchedule) (acc : SchedState) (i : Nat),
      (∀ row ∈ l, row.id ≠ i) →
      nrGet (l.foldl (refreshStep cron) acc).nextRun i = nrGet acc.nextRun i := by
  intro l
  induction l with
  | nil => intro acc i _; rfl
  | cons r rest ih =>
    intro acc i hall
    rw [List.foldl_cons,
      ih _ i (fun row hr => hall row (List.mem_cons_of_mem r hr))]
    exact refreshStep_nr_other cron acc r (hall r (List.mem_cons_self r rest))

theorem refreshFold_mem (cron : CronEnv) :
    ∀ (l : List SyncSchedule) (acc : SchedState) (i : Nat),
      (l.map (fun r => r.id)).Nodup → acc.jobs.Nodup →
      (∀ row ∈ l, row.enabled = true → cron.parses row.cronExpr = true) →
      (i ∈ (l.foldl (refreshStep cron) acc).jobs ↔
        (∃ row, row ∈ l ∧ row.id = i ∧ row.enabled = true)
        ∨ (i ∈ acc.jobs ∧ ∀ row ∈ l, row.id ≠ i)) := by
  intro l
  induction l with
  | nil => intro acc i _ _ _; simp
  | cons r rest ih =>
    intro acc i hids hnd hp
    have hidsr : (rest.map (fun r => r.id)).Nodup := by
      rw [List.map_cons] at hids
      exact (List.nodup_cons.mp hids).2
    have hridr : r.id ∉ rest.map (fun r => r.id) := by
      rw [List.map_cons] at hids
      exact (List.nodup_cons.mp hids).1
    have hidr : ∀ row ∈ rest, row.id ≠ r.id := by
      intro row hr he
      exact hridr (List.mem_map.mpr ⟨row, hr, he⟩)
    have hprest : ∀ row ∈ rest, row.enabled = true → cron.parses row.cronExpr = true :=
      fun row hr => hp row (List.mem_cons_of_mem r hr)
    rw [List.foldl_cons]
    by_cases hi : r.id = i
    · subst hi
      cases hen : r.enabled with
      | true =>
        have hmem_step : r.id ∈ (refreshStep cron acc r).jobs := by
          unfold refreshStep
          rw [hen, if_pos rfl]
          by_cases hc : acc.jobs.contains r.id
          · rw [if_pos hc]
            simpa using hc
          · rw [if_neg hc]
            unfold addJob
            rw [if_pos (hp r (List.mem_cons_self r rest) hen)]
            dsimp only
            rw [if_neg hc]
            simp
        rw [refreshFold_jobs_other cron rest _ r.id hidr]
        exact iff_of_true hmem_step (Or.inl ⟨r, List.mem_cons_self r rest, rfl, hen⟩)
      | false =>
        have hnot : r.id ∉ (refreshStep cron acc r).jobs := by
          unfold refreshStep
          rw [hen, if_neg Bool.false_ne_true]
          unfold removeJob
          intro hmem
          exact ((hnd.mem_erase_iff).mp hmem).1 rfl
        rw [refreshFold_jobs_other cron rest _ r.id hidr]
        apply iff_of_false hnot
        rintro (⟨row, hrow, hid, henr⟩ | ⟨_, hall⟩)
        · rcases List.mem_cons.mp hrow with rfl | hrr
          · rw [hen] at henr
            exact Bool.noConfusion henr
          · exact hidr row hrr hid
        · exact hall r (List.mem_cons_self r rest) rfl
    · rw [ih (refreshStep cron acc r) i hidsr (refreshStep_nodup cron acc r hnd) hprest]
      constructor
      · rintro (⟨row, hr, hid, hE⟩ | ⟨hmem, hall⟩)
        · exact Or.inl ⟨row, List.mem_cons_of_mem r hr, hid, hE⟩
        · refine Or.inr ⟨(refreshStep_jobs_other cron acc r hi).mp hmem, ?_⟩
          intro row hrow
          rcases List.mem_cons.mp hrow with rfl | hrr
          · exact hi
          · exact hall row hrr
      · rintro (⟨row, hrow, hid, hE⟩ | ⟨hmem, hall⟩)
        · rcases List.mem_cons.mp hrow with rfl | hrr
          · exact absurd hid hi
          · exact Or.inl ⟨row, hrr, hid, hE⟩
        · exact Or.inr ⟨(refreshStep_jobs_other cron acc r hi).mpr hmem,
            fun row hr => hall row (List.mem_cons_of_mem r hr)⟩

theorem refreshFold_nextRun (cron : CronEnv) :
    ∀ (l : List SyncSchedule) (acc : SchedState),
      (l.map (fun r => r.id)).Nodup →
      (∀ row ∈ l, row.enabled = true → cron.parses row.cronExpr = true) →
      ∀ row ∈ l, row.enabled = true → acc.jobs.contains row.id = false →
        nrGet (l.foldl (refreshStep cron) acc).nextRun row.id =
          some (cron.nextOf row.cronExpr) := by
  intro l
  induction l with
  | nil => intro acc _ _ row hrow; exact absurd hrow (List.not_mem_nil row)
  | cons r rest ih =>
    intro acc hids hp row hrow hen hc
    have hidsr : (rest.map (fun r => r.id)).Nodup := by
      rw [List.map_cons] at hids
      exact (List.nodup_cons.mp hids).2
    have hridr : r.id ∉ rest.map (fun r => r.id) := by
      rw [List.map_cons] at hids
      exact (List.nodup_cons.mp hids).1
    have hidr : ∀ row2 ∈ rest, row2.id ≠ r.id := by
      intro row2 hr he
      exact hridr (List.mem_map.mpr ⟨row2, hr, he⟩)
    have hprest : ∀ row2 ∈ rest, row2.enabled = true → cron.parses row2.cronExpr = true :=
      fun row2 hr => hp row2 (List.mem_cons_of_mem r hr)
    rw [List.foldl_cons]
    rcases List.mem_cons.mp hrow with rfl | hrr
    · have hstep : nrGet (refreshStep cron acc row).nextRun row.id =
          some (cron.nextOf row.cronExpr) := by
        unfold refreshStep
        rw [hen, if_pos rfl, if_neg (by rw [hc]; exact Bool.false_ne_true)]
        unfold addJob
        rw [if_pos (hp row (List.mem_cons_self row rest) hen)]
        dsimp only
        exact nrGet_set_self _ _ _
      rw [refreshFold_nr_other cron rest _ row.id hidr]
      exact hstep
    · have hne : r.id ≠ row.id := fun he => (hidr row hrr) he.symm
      have hnm : row.id ∉ (refreshStep cron acc r).jobs := by
        rw [refreshStep_jobs_other cron acc r hne]
        simpa using hc
      exact ih (refreshStep cron acc r) hidsr hprest row hrr hen (by simpa using hnm)

/-- C9: after one reconciliation pass of `refreshSchedules` (run every 30
seconds by `watchForChanges`), the in-memory job set contains exactly the ids
of the table rows with `enabled = true` — enabled rows not yet registered are
added with a freshly computed `next_run_at`, disabled rows still registered are
removed, rows deleted from the table are removed — provided the table's ids are
distinct and every enabled row's cron expression parses (the schedule CRUD
endpoints reject unparsable expressions at creation and update). -/
theorem refreshSchedules_reconciles (cron : CronEnv) (table : List SyncSchedule)
    (st : SchedState)
    (hids : (table.map (fun r => r.id)).Nodup)
    (hjobs : st.jobs.Nodup)
    (hparse : ∀ row ∈ table, row.enabled = true → cron.parses row.cronExpr = true) :
    (∀ i : Nat, i ∈ (refreshSchedules cron table st).jobs ↔
      ∃ row, row ∈ table ∧ row.id = i ∧ row.enabled = true)
    ∧ (∀ row ∈ table, row.enabled = true → st.jobs.contains row.id = false →
      nrGet (refreshSchedules cron table st).nextRun row.id = some (cron.nextOf row.cronExpr))
    ∧ tickIntervalSeconds = 30 := by
  refine ⟨?_, ?_, rfl⟩
  · intro i
    unfold refreshSchedules
    dsimp only
    rw [List.mem_filter, refreshFold_mem cron table st i hids hjobs hparse]
    constructor
    · rintro ⟨hA | ⟨_, hall⟩, hany⟩
      · exact hA
      · simp only [List.any_eq_true, beq_iff_eq] at hany
        obtain ⟨row, hrow, hid⟩ := hany
        exact absurd hid (hall row hrow)
    · rintro ⟨row, hrow, hid, hen⟩
      refine ⟨Or.inl ⟨row, hrow, hid, hen⟩, ?_⟩
      simp only [List.any_eq_true, beq_iff_eq]
      exact ⟨row, hrow, hid⟩
  · intro row hrow hen hc
    unfold refreshSchedules
    dsimp only
    exact refreshFold_nextRun cron table st hids hparse row hrow hen hc

/-- Witness for C9: a table with one enabled and one disabled row, starting
from a state where only the disabled row is registered — after one pass,
exactly the enabled row is registered, with its freshly computed
`next_run_at`. -/
theorem refreshSchedules_reconciles_witness :
    ((1 : Nat) ∈ (refreshSchedules ⟨fun _ => true, fun _ => 7⟩
        [⟨1, "hashicorp", "aws", "0 0 * * *", true, "all", "all"⟩,
         ⟨2, "hashicorp", "random", "0 0 * * *", false, "all", "all"⟩]
        ⟨[2], [(2, 5)]⟩).jobs ↔
      ∃ row, row ∈ [(⟨1, "hashicorp", "aws", "0 0 * * *", true, "all", "all"⟩ : SyncSchedule),
         ⟨2, "hashicorp", "random", "0 0 * * *", false, "all", "all"⟩] ∧
        row.id = 1 ∧ row.enabled = true)
    ∧ nrGet (refreshSchedules ⟨fun _ => true, fun _ => 7⟩
        [⟨1, "hashicorp", "aws", "0 0 * * *", true, "all", "all"⟩,
         ⟨2, "hashicorp", "random", "0 0 * * *", false, "all", "all"⟩]
        ⟨[2], [(2, 5)]⟩).nextRun 1 = some 7 :=
  ⟨(refreshSchedules_reconciles ⟨fun _ => true, fun _ => 7⟩
      [⟨1, "hashicorp", "aws", "0 0 * * *", true, "all", "all"⟩,
       ⟨2, "hashicorp", "random", "0 0 * * *", false, "all", "all"⟩]
      ⟨[2], [(2, 5)]⟩ (by decide) (by decide) (by decide)).1 1,
   (refreshSchedules_reconciles ⟨fun _ => true, fun _ => 7⟩
      [⟨1, "hashicorp", "aws", "0 0 * * *", true, "all", "all"⟩,
       ⟨2, "hashicorp", "random", "0 0 * * *", false, "all", "all"⟩]
      ⟨[2], [(2, 5)]⟩ (by decide) (by decide) (by decide)).2.1
      ⟨1, "hashicorp", "aws", "0 0 * * *", true, "all", "all"⟩ (by simp) rfl rfl⟩

theorem validateProviderParams_bad_nsname (nspace name : String)
    (hbad : 64 < nspace.utf8ByteSize ∨ validIdentifierMatch nspace = false ∨
            64 < name.utf8ByteSize ∨ validIdentifierMatch name = false) :
    ∀ v : String, validateProviderParams nspace name v ≠ "" := by
  intro v
  unfold validateProviderParams
  by_cases hns : 64 < nspace.utf8ByteSize ∨ validIdentifierMatch nspace = false
  · rw [if_pos hns]
    decide
  · have hname : 64 < name.utf8ByteSize ∨ validIdentifierMatch name = false := by
      rcases hbad with h | h | h | h
      · exact absurd (Or.inl h) hns
      · exact absurd (Or.inr h) hns
      · exact Or.inl h
      · exact Or.inr h
    rw [if_neg hns, if_pos hname]
    decide

/-- C10: for every namespace or name that is longer than 64 bytes or fails the
`^[a-z0-9][a-z0-9_-]*$` identifier regexp, both network-mirror protocol
endpoints (`ListAvailableVersions` and `GetVersionArchives`) answer HTTP 400
with an error body without consulting the local database or the upstream
registry, whatever the rest of the request environment holds. -/
theorem mirrorProtocol_validates_before_consulting
    (nspace name versionParam : String) (env : MirrorProtocolEnv)
    (hbad : 64 < nspace.utf8ByteSize ∨ validIdentifierMatch nspace = false ∨
            64 < name.utf8ByteSize ∨ validIdentifierMatch name = false) :
    ((listAvailableVersions nspace name env).status = 400
      ∧ (listAvailableVersions nspace name env).errorBody ≠ none
      ∧ (listAvailableVersions nspace name env).dbConsulted = false
      ∧ (listAvailableVersions nspace name env).upstreamConsulted = false)
    ∧ ((getVersionArchives nspace name versionParam env).status = 400
      ∧ (getVersionArchives nspace name versionParam env).errorBody ≠ none
      ∧ (getVersionArchives nspace name versionParam env).dbConsulted = false
      ∧ (getVersionArchives nspace name versionParam env).upstreamConsulted = false) := by
  have hmsg := validateProviderParams_bad_nsname nspace name hbad
  constructor
  · unfold listAvailableVersions
    rw [if_pos (hmsg "")]
    exact ⟨rfl, by simp, rfl, rfl⟩
  · unfold getVersionArchives
    rw [if_pos (hmsg (strTrimSuffix versionParam ".json"))]
    exact ⟨rfl, by simp, rfl, rfl⟩

/-- Witness for C10: an uppercase namespace is rejected with 400 by both
endpoints before any database or upstream access. -/
theorem mirrorProtocol_validates_before_consulting_witness :
    ((listAvailableVersions "BadNS" "aws"
        ⟨.ok ["1.0.0"], none, .error "unreachable", [], "mirror.local", "https"⟩).status = 400
      ∧ (listAvailableVersions "BadNS" "aws"
        ⟨.ok ["1.0.0"], none, .error "unreachable", [], "mirror.local", "https"⟩).errorBody ≠ none
      ∧ (listAvailableVersions "BadNS" "aws"
        ⟨.ok ["1.0.0"], none, .error "unreachable", [], "mirror.local", "https"⟩).dbConsulted = false
      ∧ (listAvailableVersions "BadNS" "aws"
        ⟨.ok ["1.0.0"], none, .error "unreachable", [], "mirror.local", "https"⟩).upstreamConsulted
        = false)
    ∧ ((getVersionArchives "BadNS" "aws" "1.0.0.json"
        ⟨.ok ["1.0.0"], none, .error "unreachable", [], "mirror.local", "https"⟩).status = 400
      ∧ (getVersionArchives "BadNS" "aws" "1.0.0.json"
        ⟨.ok ["1.0.0"], none, .error "unreachable", [], "mirror.local", "https"⟩).errorBody ≠ none
      ∧ (getVersionArchives "BadNS" "aws" "1.0.0.json"
        ⟨.ok ["1.0.0"], none, .error "unreachable", [], "mirror.local", "https"⟩).dbConsulted = false
      ∧ (getVersionArchives "BadNS" "aws" "1.0.0.json"
        ⟨.ok ["1.0.0"], none, .error "unreachable", [], "mirror.local", "https"⟩).upstreamConsulted
        = false) :=
  mirrorProtocol_validates_before_consulting "BadNS" "aws" "1.0.0.json"
    ⟨.ok ["1.0.0"], none, .error "unreachable", [], "mirror.local", "https"⟩
    (Or.inr (Or.inl (by decide)))
